import Mathlib

/-!
# Verification of the `enchanted-beans` wire protocol core

This file gives a shallow embedding, in Lean, of the protocol core of the
`enchanted-beans` work-queue broker (a beanstalkd-protocol server written in
Rust), and proves properties of that embedding.

Bytes are modelled as natural numbers (the relevant comparisons only involve
values below 256), byte slices as `List Nat`, and the fallible, state-threading
parser methods of `ParseState` (src/parser.rs) as functions
`List Nat → Except ParsingError (α × List Nat)` returning the parsed value and
the unconsumed remainder.  Machine integers (`u32`, `u64`) are modelled as
`Nat` together with the explicit overflow checks that the source performs with
`checked_mul`/`checked_add` against the width bounds `2 ^ 32` and `2 ^ 64`.

The asynchronous `LineReader` (src/line_reader.rs) is modelled as a pure state
machine whose data source is a list of read events (a successful `read_buf`
delivering a chunk of bytes, or a read error); end of stream is the exhaustion
of that list, matching a `read_buf` call returning zero bytes.
-/

set_option maxHeartbeats 1000000
set_option maxRecDepth 8000

deriving instance DecidableEq for Except

namespace EnchantedBeans

/-- Byte values of an ASCII string literal. -/
def strB (s : String) : List Nat := s.toList.map Char.toNat

/-- Errors produced by the command parser: embeds `ParsingError`
(src/parser.rs). -/
inductive ParsingError where
  | BadFormat
  | UnknownCommand
deriving DecidableEq

/-- Embeds `impl BeanstalkSerialisable for ParsingError` (src/parser.rs). -/
def ParsingError.serialise_beanstalk : ParsingError → List Nat
  | .BadFormat => strB "BAD_FORMAT\r\n"
  | .UnknownCommand => strB "UNKNOWN_COMMAND\r\n"

/-- Embeds the `BeanstalkCommand` enum (src/types/protocol.rs).  Numeric
fields are `Nat`s; the parser never produces values outside the `u32`/`u64`
range for them. -/
inductive BeanstalkCommand where
  | Put (pri delay ttr n_bytes : Nat)
  | Reserve
  | ReserveWithTimeout (timeout : Nat)
  | ReserveJob (id : Nat)
  | Release (id pri delay : Nat)
  | Delete (id : Nat)
  | Bury (id pri : Nat)
  | Touch (id : Nat)
  | Watch (tube : List Nat)
  | Ignore (tube : List Nat)
  | Peek (id : Nat)
  | PeekReady
  | PeekDelayed
  | PeekBuried
  | Kick (bound : Nat)
  | KickJob (id : Nat)
  | StatsJob (id : Nat)
  | StatsTube (tube : List Nat)
  | StatsServer
  | ListTubes
  | ListTubeUsed
  | ListTubesWatched
  | Quit
  | PauseTube (tube : List Nat) (delay : Nat)
  | Use (tube : List Nat)
deriving DecidableEq

/-- Index of the first space byte in a list, or its length if there is none:
embeds `self.from.iter().position(|c| *c == b' ').unwrap_or(len)` inside
`ParseState::next_token` (src/parser.rs). -/
def spacePos : List Nat → Nat
  | [] => 0
  | c :: rest => if c = 32 then 0 else spacePos rest + 1

/-- Embeds `ParseState::next_token` (src/parser.rs): `none` at the end of the
input, otherwise the (possibly empty) run of bytes before the first space,
paired with the unconsumed remainder (which starts with that space, if any). -/
def next_token (s : List Nat) : Option (List Nat × List Nat) :=
  if s.length = 0 then none
  else some (s.take (spacePos s), s.drop (spacePos s))

/-- Embeds `ParseState::expect_next_token` (src/parser.rs): a token of
non-zero length, else `BadFormat`. -/
def expect_next_token (s : List Nat) :
    Except ParsingError (List Nat × List Nat) :=
  match next_token s with
  | none => .error .BadFormat
  | some (t, rest) =>
      if t.length = 0 then .error .BadFormat else .ok (t, rest)

/-- Embeds `ParseState::expect_space` (src/parser.rs). -/
def expect_space (s : List Nat) : Except ParsingError (List Nat) :=
  match s with
  | 32 :: rest => .ok rest
  | _ => .error .BadFormat

/-- The checked digit-accumulation loop shared by `ParseState::expect_next_u32`
and `ParseState::expect_next_u64` (src/parser.rs).  `W` is `2 ^ 32` or
`2 ^ 64`; `checked_mul`/`checked_add` failing is modelled as the result
reaching `W` or beyond.  A byte outside `b'0'..=b'9'` is `BadFormat`. -/
def accumDigits (W : Nat) : Nat → List Nat → Except ParsingError Nat
  | r, [] => .ok r
  | r, v :: rest =>
      if 48 ≤ v ∧ v ≤ 57 then
        if r * 10 < W then
          if r * 10 + (v - 48) < W then
            accumDigits W (r * 10 + (v - 48)) rest
          else .error .BadFormat
        else .error .BadFormat
      else .error .BadFormat

/-- Embeds `ParseState::expect_next_u32` (src/parser.rs): a space, then a
non-empty all-digit token whose value fits in a `u32`. -/
def expect_next_u32 (s : List Nat) : Except ParsingError (Nat × List Nat) :=
  match expect_space s with
  | .error e => .error e
  | .ok s1 =>
    match expect_next_token s1 with
    | .error e => .error e
    | .ok (t, s2) =>
      match accumDigits (2 ^ 32) 0 t with
      | .error e => .error e
      | .ok r => .ok (r, s2)

/-- Embeds `ParseState::expect_next_u64` (src/parser.rs). -/
def expect_next_u64 (s : List Nat) : Except ParsingError (Nat × List Nat) :=
  match expect_space s with
  | .error e => .error e
  | .ok s1 =>
    match expect_next_token s1 with
    | .error e => .error e
    | .ok (t, s2) =>
      match accumDigits (2 ^ 64) 0 t with
      | .error e => .error e
      | .ok r => .ok (r, s2)

/-- Embeds `char_is_name_safe` (src/parser.rs): letters, digits,
`+ / ; . $ _ ( )`, and `-` outside the first position. -/
def char_is_name_safe (c : Nat) (is_first : Bool) : Bool :=
  if 97 ≤ c ∧ c ≤ 122 then true
  else if 65 ≤ c ∧ c ≤ 90 then true
  else if 48 ≤ c ∧ c ≤ 57 then true
  else if c = 43 ∨ c = 47 ∨ c = 59 ∨ c = 46 ∨ c = 36 ∨ c = 95 ∨ c = 40 ∨ c = 41
    then true
  else if c = 45 then !is_first
  else false

/-- Embeds the `r.iter().enumerate().all(|(i, c)| char_is_name_safe(*c, i == 0))`
check inside `ParseState::expect_next_name` (src/parser.rs): the first byte is
checked with `is_first = true`, every later byte with `is_first = false`. -/
def name_all : List Nat → Bool
  | [] => true
  | c :: rest =>
      char_is_name_safe c true && rest.all (fun d => char_is_name_safe d false)

/-- Embeds `ParseState::expect_next_name` (src/parser.rs): a space, then a
non-empty token that passes the character check and is at most 200 bytes. -/
def expect_next_name (s : List Nat) :
    Except ParsingError (List Nat × List Nat) :=
  match expect_space s with
  | .error e => .error e
  | .ok s1 =>
    match expect_next_token s1 with
    | .error e => .error e
    | .ok (t, s2) =>
      if name_all t ∧ t.length ≤ 200 then .ok (t, s2)
      else .error .BadFormat

/-- Embeds `ParseState::expect_done_and` (src/parser.rs): succeeds only when
the whole input has been consumed. -/
def expect_done_and (s : List Nat) (c : BeanstalkCommand) :
    Except ParsingError BeanstalkCommand :=
  if s.length = 0 then .ok c else .error .BadFormat

/-- The `<cmd>` (no fields) arm shape of the `match` in
`impl TryFrom<&[u8]> for BeanstalkCommand` (src/parser.rs). -/
def field_none (c : BeanstalkCommand) (s : List Nat) :
    Except ParsingError (BeanstalkCommand × List Nat) :=
  .ok (c, s)

/-- The `<cmd> <id>` arm shape (one `expect_next_u64` field) of the `match`
in `impl TryFrom<&[u8]> for BeanstalkCommand` (src/parser.rs). -/
def field_u64 (f : Nat → BeanstalkCommand) (s : List Nat) :
    Except ParsingError (BeanstalkCommand × List Nat) :=
  match expect_next_u64 s with
  | .error e => .error e
  | .ok (id, s) => .ok (f id, s)

/-- The `<cmd> <timeout>` arm shape (one `expect_next_u32` field). -/
def field_u32 (f : Nat → BeanstalkCommand) (s : List Nat) :
    Except ParsingError (BeanstalkCommand × List Nat) :=
  match expect_next_u32 s with
  | .error e => .error e
  | .ok (v, s) => .ok (f v, s)

/-- The `<cmd> <tube>` arm shape (one `expect_next_name` field). -/
def field_name (f : List Nat → BeanstalkCommand) (s : List Nat) :
    Except ParsingError (BeanstalkCommand × List Nat) :=
  match expect_next_name s with
  | .error e => .error e
  | .ok (tube, s) => .ok (f tube, s)

/-- The `<cmd> <id> <pri>` arm shape (`bury`). -/
def field_u64_u32 (f : Nat → Nat → BeanstalkCommand) (s : List Nat) :
    Except ParsingError (BeanstalkCommand × List Nat) :=
  match expect_next_u64 s with
  | .error e => .error e
  | .ok (id, s) =>
    match expect_next_u32 s with
    | .error e => .error e
    | .ok (pri, s) => .ok (f id pri, s)

/-- The `<cmd> <tube> <delay>` arm shape (`pause-tube`). -/
def field_name_u32 (f : List Nat → Nat → BeanstalkCommand) (s : List Nat) :
    Except ParsingError (BeanstalkCommand × List Nat) :=
  match expect_next_name s with
  | .error e => .error e
  | .ok (tube, s) =>
    match expect_next_u32 s with
    | .error e => .error e
    | .ok (delay, s) => .ok (f tube delay, s)

/-- The `<cmd> <id> <pri> <delay>` arm shape (`release`). -/
def field_u64_u32_u32 (f : Nat → Nat → Nat → BeanstalkCommand)
    (s : List Nat) : Except ParsingError (BeanstalkCommand × List Nat) :=
  match expect_next_u64 s with
  | .error e => .error e
  | .ok (id, s) =>
    match expect_next_u32 s with
    | .error e => .error e
    | .ok (pri, s) =>
      match expect_next_u32 s with
      | .error e => .error e
      | .ok (delay, s) => .ok (f id pri delay, s)

/-- The `<cmd> <pri> <delay> <ttr> <n_bytes>` arm shape (`put`). -/
def field_u32x4 (f : Nat → Nat → Nat → Nat → BeanstalkCommand)
    (s : List Nat) : Except ParsingError (BeanstalkCommand × List Nat) :=
  match expect_next_u32 s with
  | .error e => .error e
  | .ok (pri, s) =>
    match expect_next_u32 s with
    | .error e => .error e
    | .ok (delay, s) =>
      match expect_next_u32 s with
      | .error e => .error e
      | .ok (ttr, s) =>
        match expect_next_u32 s with
        | .error e => .error e
        | .ok (n_bytes, s) => .ok (f pri delay ttr n_bytes, s)

/-- The command-name dispatch of `impl TryFrom<&[u8]> for BeanstalkCommand`
(src/parser.rs): the leading token `t` selects the command and its fixed
field sequence, applied to the remaining input `s`; an unrecognised leading
token is `UnknownCommand`.  The arms are in the source's order. -/
def dispatch (t s : List Nat) :
    Except ParsingError (BeanstalkCommand × List Nat) :=
  if t = strB "list-tube-used" then field_none .ListTubeUsed s
  else if t = strB "list-tubes-watched" then field_none .ListTubesWatched s
  else if t = strB "list-tubes" then field_none .ListTubes s
  else if t = strB "peek-buried" then field_none .PeekBuried s
  else if t = strB "peek-delayed" then field_none .PeekDelayed s
  else if t = strB "peek-ready" then field_none .PeekReady s
  else if t = strB "quit" then field_none .Quit s
  else if t = strB "reserve" then field_none .Reserve s
  else if t = strB "stats" then field_none .StatsServer s
  else if t = strB "delete" then field_u64 .Delete s
  else if t = strB "kick" then field_u64 .Kick s
  else if t = strB "kick-job" then field_u64 .KickJob s
  else if t = strB "peek" then field_u64 .Peek s
  else if t = strB "reserve-job" then field_u64 .ReserveJob s
  else if t = strB "stats-job" then field_u64 .StatsJob s
  else if t = strB "touch" then field_u64 .Touch s
  else if t = strB "reserve-with-timeout" then field_u32 .ReserveWithTimeout s
  else if t = strB "use" then field_name .Use s
  else if t = strB "watch" then field_name .Watch s
  else if t = strB "ignore" then field_name .Ignore s
  else if t = strB "stats-tube" then field_name .StatsTube s
  else if t = strB "bury" then field_u64_u32 .Bury s
  else if t = strB "pause-tube" then field_name_u32 .PauseTube s
  else if t = strB "release" then field_u64_u32_u32 .Release s
  else if t = strB "put" then field_u32x4 .Put s
  else .error .UnknownCommand

/-- The recognised leading command tokens, in the source's arm order. -/
def commandNames : List (List Nat) :=
  [strB "list-tube-used", strB "list-tubes-watched", strB "list-tubes",
   strB "peek-buried", strB "peek-delayed", strB "peek-ready", strB "quit",
   strB "reserve", strB "stats", strB "delete", strB "kick", strB "kick-job",
   strB "peek", strB "reserve-job", strB "stats-job", strB "touch",
   strB "reserve-with-timeout", strB "use", strB "watch", strB "ignore",
   strB "stats-tube", strB "bury", strB "pause-tube", strB "release",
   strB "put"]

/-- The dispatch-and-fields part of `impl TryFrom<&[u8]> for BeanstalkCommand`
(src/parser.rs): leading token, then that command's fixed field sequence,
returning the command and the unconsumed remainder.  The final
`expect_done_and` check is applied by `parseCommand` below. -/
def parseCmdBody (s : List Nat) :
    Except ParsingError (BeanstalkCommand × List Nat) :=
  match expect_next_token s with
  | .error e => .error e
  | .ok (t, s) => dispatch t s

/-- Embeds `impl TryFrom<&[u8]> for BeanstalkCommand` (src/parser.rs): parse
the leading token and the command's fields, then require the input to be
exhausted. -/
def parseCommand (s : List Nat) : Except ParsingError BeanstalkCommand :=
  match parseCmdBody s with
  | .error e => .error e
  | .ok (c, rest) => expect_done_and rest c

/-- Decimal digit string (most-significant digit first) of a natural number,
as a list of ASCII byte values.  This is the embedding of Rust's decimal
`Display` formatting used by `format!` in the response encoder, and the
reference decimal encoding for the numeric-field round-trip property. -/
def natToDec (n : Nat) : List Nat :=
  if n < 10 then [48 + n]
  else natToDec (n / 10) ++ [48 + n % 10]
decreasing_by exact Nat.div_lt_self (by omega) (by omega)

/-- Embeds the `BeanstalkResponse` enum (src/types/protocol.rs).  In the
source the four statistics variants carry the `JobStats`/`ServerStats`/
`TubeStats` structs and the tube-name list, which `serialise_beanstalk`
first renders through the external `serde_yaml` library; the model carries
that rendered YAML payload byte string itself (the rendering is an external
collaborator, spec §6), which is everything the encoder's own `OK <n_bytes>`
framing depends on. -/
inductive BeanstalkResponse where
  | OutOfMemory
  | InternalError
  | BadFormat
  | UnknownCommand
  | Inserted (id : Nat)
  | BuriedID (id : Nat)
  | ExpectedCRLF
  | JobTooBig
  | Draining
  | Using (tube : List Nat)
  | DeadlineSoon
  | TimedOut
  | Reserved (id : Nat) (data : List Nat)
  | NotFound
  | Deleted
  | Released
  | Buried
  | Touched
  | Watching (count : Nat)
  | NotIgnored
  | Found (id : Nat) (data : List Nat)
  | KickedCount (count : Nat)
  | Kicked
  | OkStatsJob (data : List Nat)
  | OkStats (data : List Nat)
  | OkStatsTube (data : List Nat)
  | OkListTubes (data : List Nat)
  | Paused
deriving DecidableEq

/-- Embeds `impl BeanstalkSerialisable for BeanstalkResponse`
(src/types/protocol.rs).  `format!`'s `{id}` interpolation of a `u64`/`u32`
is modelled by `natToDec`; `data.len()` is `data.length`. -/
def BeanstalkResponse.serialise_beanstalk : BeanstalkResponse → List Nat
  | .OutOfMemory => strB "OUT_OF_MEMORY\r\n"
  | .InternalError => strB "INTERNAL_ERROR\r\n"
  | .BadFormat => strB "BAD_FORMAT\r\n"
  | .UnknownCommand => strB "UNKNOWN_COMMAND\r\n"
  | .Inserted id => strB "INSERTED " ++ natToDec id ++ strB "\r\n"
  | .BuriedID id => strB "BURIED " ++ natToDec id ++ strB "\r\n"
  | .ExpectedCRLF => strB "EXPECTED_CRLF\r\n"
  | .JobTooBig => strB "JOB_TOO_BIG\r\n"
  | .Draining => strB "DRAINING\r\n"
  | .Using tube => strB "USING " ++ tube ++ strB "\r\n"
  | .DeadlineSoon => strB "DEADLINE_SOON\r\n"
  | .TimedOut => strB "TIMED_OUT\r\n"
  | .Reserved id data =>
      strB "RESERVED " ++ natToDec id ++ strB " " ++ natToDec data.length ++
        strB "\r\n" ++ data ++ strB "\r\n"
  | .NotFound => strB "NOT_FOUND\r\n"
  | .Deleted => strB "DELETED\r\n"
  | .Released => strB "RELEASED\r\n"
  | .Buried => strB "BURIED\r\n"
  | .Touched => strB "TOUCHED\r\n"
  | .Watching count => strB "WATCHING " ++ natToDec count ++ strB "\r\n"
  | .NotIgnored => strB "NOT_IGNORED\r\n"
  | .Found id data =>
      strB "FOUND " ++ natToDec id ++ strB " " ++ natToDec data.length ++
        strB "\r\n" ++ data ++ strB "\r\n"
  | .KickedCount count => strB "KICKED " ++ natToDec count ++ strB "\r\n"
  | .Kicked => strB "KICKED\r\n"
  | .OkStatsJob data =>
      strB "OK " ++ natToDec data.length ++ strB "\r\n" ++ data ++
        strB "\r\n"
  | .OkStats data =>
      strB "OK " ++ natToDec data.length ++ strB "\r\n" ++ data ++
        strB "\r\n"
  | .OkStatsTube data =>
      strB "OK " ++ natToDec data.length ++ strB "\r\n" ++ data ++
        strB "\r\n"
  | .OkListTubes data =>
      strB "OK " ++ natToDec data.length ++ strB "\r\n" ++ data ++
        strB "\r\n"
  | .Paused => strB "PAUSED\r\n"

/-- Stated from the spec's words (claim C8 and the §6 command grammar): the
exact wire byte sequence of each typed outcome.  Every simple outcome is
its fixed keyword line followed by CRLF (`[13, 10]`); `INSERTED`/`BURIED`/
`USING`/`WATCHING`/`KICKED` carry their single field before the CRLF;
`RESERVED` and `FOUND` are `<keyword> <id> <n_bytes>` then CRLF, the body
bytes, and CRLF, with `<n_bytes>` the exact byte length of the body; the
statistics payloads use the same `OK <n_bytes>` framing around their
rendered YAML bytes. -/
def specWireBytes : BeanstalkResponse → List Nat
  | .OutOfMemory => strB "OUT_OF_MEMORY" ++ [13, 10]
  | .InternalError => strB "INTERNAL_ERROR" ++ [13, 10]
  | .BadFormat => strB "BAD_FORMAT" ++ [13, 10]
  | .UnknownCommand => strB "UNKNOWN_COMMAND" ++ [13, 10]
  | .Inserted id => strB "INSERTED" ++ [32] ++ natToDec id ++ [13, 10]
  | .BuriedID id => strB "BURIED" ++ [32] ++ natToDec id ++ [13, 10]
  | .ExpectedCRLF => strB "EXPECTED_CRLF" ++ [13, 10]
  | .JobTooBig => strB "JOB_TOO_BIG" ++ [13, 10]
  | .Draining => strB "DRAINING" ++ [13, 10]
  | .Using tube => strB "USING" ++ [32] ++ tube ++ [13, 10]
  | .DeadlineSoon => strB "DEADLINE_SOON" ++ [13, 10]
  | .TimedOut => strB "TIMED_OUT" ++ [13, 10]
  | .Reserved id data =>
      strB "RESERVED" ++ [32] ++ natToDec id ++ [32] ++
        natToDec data.length ++ [13, 10] ++ data ++ [13, 10]
  | .NotFound => strB "NOT_FOUND" ++ [13, 10]
  | .Deleted => strB "DELETED" ++ [13, 10]
  | .Released => strB "RELEASED" ++ [13, 10]
  | .Buried => strB "BURIED" ++ [13, 10]
  | .Touched => strB "TOUCHED" ++ [13, 10]
  | .Watching count => strB "WATCHING" ++ [32] ++ natToDec count ++ [13, 10]
  | .NotIgnored => strB "NOT_IGNORED" ++ [13, 10]
  | .Found id data =>
      strB "FOUND" ++ [32] ++ natToDec id ++ [32] ++
        natToDec data.length ++ [13, 10] ++ data ++ [13, 10]
  | .KickedCount count => strB "KICKED" ++ [32] ++ natToDec count ++ [13, 10]
  | .Kicked => strB "KICKED" ++ [13, 10]
  | .OkStatsJob data =>
      strB "OK" ++ [32] ++ natToDec data.length ++ [13, 10] ++ data ++
        [13, 10]
  | .OkStats data =>
      strB "OK" ++ [32] ++ natToDec data.length ++ [13, 10] ++ data ++
        [13, 10]
  | .OkStatsTube data =>
      strB "OK" ++ [32] ++ natToDec data.length ++ [13, 10] ++ data ++
        [13, 10]
  | .OkListTubes data =>
      strB "OK" ++ [32] ++ natToDec data.length ++ [13, 10] ++ data ++
        [13, 10]
  | .Paused => strB "PAUSED" ++ [13, 10]

/-- Embeds the response computation of `handle_conn`
(src/bin/ebeans/main.rs, lines 158-161) for one complete command line (the
CRLF-stripped frame): a line that parses successfully is answered with the
fixed bytes `CMD_OK\r\n` (no scheduler or store exists in the repository to
be invoked), and a parse error is answered with its serialisation.  The
response depends on nothing but the parse result of the line; in particular
`handle_conn` applies no length limit to the line. -/
def handleLine (line : List Nat) : List Nat :=
  match parseCommand line with
  | .ok _ => strB "CMD_OK\r\n"
  | .error e => e.serialise_beanstalk

/-- One `read_buf` event observed by the `LineReader` model: either a
successful read delivering a chunk of bytes, or a read error (whose payload
we abstract as a numeric code).  End of stream is the exhaustion of the event
list, matching `read_buf` returning `Ok(0)`. -/
inductive ReadEv where
  | chunk (data : List Nat)
  | err (code : Nat)
deriving DecidableEq

/-- The bytes delivered by a read event (none for an error). -/
def ReadEv.data' : ReadEv → List Nat
  | .chunk c => c
  | .err _ => []

/-- Embeds the `LineReader` struct (src/line_reader.rs): the growable buffer,
the `maybe_crlf_from` scan cursor, the data source (as the list of pending
read events), and the pending read error. -/
structure LineReader where
  buf : List Nat
  maybe_crlf_from : Nat
  reader : List ReadEv
  pending_error : Option Nat
deriving DecidableEq

/-- Index of the first adjacent `(b'\r', b'\n')` pair in a byte list: embeds
`iter().tuple_windows().position(|x| x == (&b'\r', &b'\n'))`
(src/line_reader.rs). -/
def findPair : List Nat → Option Nat
  | [] => none
  | [_] => none
  | a :: b :: rest =>
      if a = 13 ∧ b = 10 then some 0
      else (findPair (b :: rest)).map (· + 1)

/-- The value `read_line` returns when the scan finds a CRLF at (relative)
offset `eoc`: `split_to(maybe_crlf_from + eoc + 2)`, freeze, drop the
trailing CRLF, reset the cursor (src/line_reader.rs, lines 52-65). -/
def frame_result (reads : List ReadEv) (buf : List Nat) (mcf eoc : Nat)
    (pe : Option Nat) : Except Nat (Option (List Nat)) × LineReader :=
  (.ok (some ((buf.take (mcf + eoc + 2)).take
      ((buf.take (mcf + eoc + 2)).length - 2))),
    ⟨buf.drop (mcf + eoc + 2), 0, reads, pe⟩)

/-- The value `read_line` returns when `read_buf` delivered zero bytes
(end of stream): `pending_error.take()` decides between the stored error and
the normal end-of-sequence signal (src/line_reader.rs, lines 90-94); the
cursor has already been pulled back to `buf.len() - 1`. -/
def eos_result (buf : List Nat) (reads : List ReadEv) (pe : Option Nat) :
    Except Nat (Option (List Nat)) × LineReader :=
  match pe with
  | some e => (.error e, ⟨buf, buf.length - 1, reads, none⟩)
  | none => (.ok none, ⟨buf, buf.length - 1, reads, none⟩)

/-- Embeds the loop body of `LineReader::read_line` (src/line_reader.rs) as
a pure function, recursing structurally on the pending read events (the loop
performs one `read_buf` per iteration).  Each arm first scans
`buf[maybe_crlf_from..]` for a CRLF (`Option.elim` plays the role of the
source's `if let Some(eoc)`); on a hit the buffered line is returned without
touching the reader.  Otherwise one read event is consumed: a non-empty
chunk is appended to the buffer, the cursor is pulled back to one byte
before the new data (`checked_sub(n + 1).unwrap_or(0)` is `Nat`
subtraction), and the loop re-scans; a zero-byte read is end of stream; a
read error stores the error and, since `n_bytes_read` is then `0`, returns
`pending_error.take()` immediately. -/
def read_line_aux : List ReadEv → List Nat → Nat → Option Nat →
    Except Nat (Option (List Nat)) × LineReader
  | [], buf, mcf, pe =>
      (findPair (buf.drop mcf)).elim (eos_result buf [] pe)
        (fun eoc => frame_result [] buf mcf eoc pe)
  | .chunk c :: rest, buf, mcf, pe =>
      (findPair (buf.drop mcf)).elim
        (if c.length = 0 then
          eos_result (buf ++ c) rest pe
        else
          read_line_aux rest (buf ++ c)
            ((buf ++ c).length - (c.length + 1)) pe)
        (fun eoc => frame_result (.chunk c :: rest) buf mcf eoc pe)
  | .err e :: rest, buf, mcf, pe =>
      (findPair (buf.drop mcf)).elim
        (.error e, ⟨buf, buf.length - 1, rest, none⟩)
        (fun eoc => frame_result (.err e :: rest) buf mcf eoc pe)

/-- Embeds `LineReader::read_line` (src/line_reader.rs). -/
def read_line (s : LineReader) : Except Nat (Option (List Nat)) × LineReader :=
  read_line_aux s.reader s.buf s.maybe_crlf_from s.pending_error

/-- Embeds `impl From<T> for LineReader` (src/line_reader.rs): an empty
buffer, cursor 0, no pending error. -/
def LineReader.fromReads (reads : List ReadEv) : LineReader :=
  ⟨[], 0, reads, none⟩

/-- Drives `read_line` until it stops yielding frames, collecting the frames
in order.  `fuel` bounds the number of frames; any fuel larger than the total
number of input bytes is enough. -/
def drain : Nat → LineReader → List (List Nat)
  | 0, _ => []
  | fuel + 1, s =>
      match read_line s with
      | (.ok (some f), s') => f :: drain fuel s'
      | _ => []

/-- Reference splitting of a byte stream into CRLF-terminated lines with the
CRLF stripped, leftmost CRLF first, discarding a trailing partial line.
`linesOfAux` is fuelled; `linesOf` supplies sufficient fuel. -/
def linesOfAux : Nat → List Nat → List (List Nat)
  | 0, _ => []
  | fuel + 1, l =>
      match findPair l with
      | some i => l.take i :: linesOfAux fuel (l.drop (i + 2))
      | none => []

/-- The CRLF-terminated lines of a byte stream (CRLF stripped, trailing
partial line discarded). -/
def linesOf (l : List Nat) : List (List Nat) := linesOfAux l.length l

/-- There is an `(b'\r', b'\n')` pair at index `i`. -/
def pairAt (l : List Nat) (i : Nat) : Prop :=
  l[i]? = some 13 ∧ l[i + 1]? = some 10

instance (l : List Nat) (i : Nat) : Decidable (pairAt l i) := by
  unfold pairAt; infer_instance

/-- Modelled from the spec: the scheduler/store component (§3 "Tube", §4.3,
§5 "Ordering guarantees") is absent from the source tree, so the ready-job
ordering is modelled from the spec's words: a ready job carries a `priority`
(`u32`, lower is more urgent) and a creation-order stamp, and ready-job
selection is "priority-then-creation-order" — lowest priority value first,
ties broken by earliest creation. -/
structure SJob where
  pri : Nat
  created : Nat
deriving DecidableEq

/-- Modelled from the spec: `a` is strictly better (selected earlier) than
`b` when its priority value is lower, or equal with earlier creation. -/
def jobBetter (a b : SJob) : Bool :=
  a.pri < b.pri || (a.pri == b.pri && a.created < b.created)

/-- Modelled from the spec: select the ready job with lowest priority value,
ties broken by earliest creation time. -/
def selectJob : List SJob → Option SJob
  | [] => none
  | j :: rest =>
      match selectJob rest with
      | none => some j
      | some k => if jobBetter k j then some k else some j

/-- Modelled from the spec: a `reserve` removes the selected job from the
ready collection and grants it to the client. -/
def reserveOne (ready : List SJob) : Option (SJob × List SJob) :=
  match selectJob ready with
  | none => none
  | some j => some (j, ready.erase j)

/-- Modelled from the spec: `put`ting jobs with the given priorities, in
order, on one tube creates ready jobs stamped with increasing creation
order. -/
def putJobs (pris : List Nat) : List SJob :=
  pris.enum.map (fun p => ⟨p.2, p.1⟩)

/-- Left-to-right decimal value of a digit-byte list, starting from
accumulator `r`: the unchecked mathematical value that the checked loop in
`expect_next_u32`/`expect_next_u64` computes when no overflow occurs. -/
def decValFrom (r : Nat) (ds : List Nat) : Nat :=
  ds.foldl (fun a d => a * 10 + (d - 48)) r

/-- Decimal value of a digit-byte list. -/
def decVal (ds : List Nat) : Nat := decValFrom 0 ds

/-- Stated from the spec's words (claim C4): a byte allowed at any position
of a tube name — a letter, a digit, or one of `+ / ; . $ _ ( )`. -/
def specAllowedByte (c : Nat) : Prop :=
  (65 ≤ c ∧ c ≤ 90) ∨ (97 ≤ c ∧ c ≤ 122) ∨ (48 ≤ c ∧ c ≤ 57) ∨
    c ∈ [43, 47, 59, 46, 36, 95, 40, 41]

instance (c : Nat) : Decidable (specAllowedByte c) := by
  unfold specAllowedByte; infer_instance

/-- Stated from the spec's words (claim C4): a valid tube name is non-empty,
at most 200 bytes, every byte is allowed (with `-` additionally allowed
anywhere except the first position). -/
def specValidTubeName (t : List Nat) : Prop :=
  match t with
  | [] => False
  | c :: rest =>
      t.length ≤ 200 ∧ specAllowedByte c ∧
        ∀ d ∈ rest, specAllowedByte d ∨ d = 45

instance (t : List Nat) : Decidable (specValidTubeName t) := by
  unfold specValidTubeName
  cases t <;> infer_instance

/-- Every pending read event is a successful read of a non-empty chunk. -/
def chunksOnly (reads : List ReadEv) : Prop :=
  ∀ ev ∈ reads, ∃ c, ev = ReadEv.chunk c ∧ c ≠ []

/-- All bytes still to be delivered by the given read events, in order. -/
def totalData (reads : List ReadEv) : List Nat :=
  (reads.map ReadEv.data').flatten

/-- A syntactically valid `put` request line of 231 bytes (233 bytes on the
wire once the trailing CRLF is counted): the priority field is written with
220 leading zeros, which `expect_next_u32`'s checked accumulation accepts
(the accumulator stays `0`). -/
def longPutLine : List Nat :=
  strB "put " ++ List.replicate 221 48 ++ strB " 0 0 0"

/-- A state-threading parser step is extension-stable when appending
`" " ++ x` to its input does not change a successful parse, the appended
bytes simply remaining unconsumed.  Every `ParseState` field parser has this
property because tokens stop at a space boundary; `expect_done_and` by design
does not. -/
def ExtOk {α : Type} (p : List Nat → Except ParsingError (α × List Nat)) :
    Prop :=
  ∀ s x a r, p s = .ok (a, r) → p (s ++ 32 :: x) = .ok (a, r ++ 32 :: x)

example : parseCommand (strB "put 987 654 321 123") =
    .ok (.Put 987 654 321 123) := by decide
example : parseCommand (strB "use -foo") = .error .BadFormat := by decide
example : parseCommand (strB "use foo bar") = .error .BadFormat := by decide
example : parseCommand (strB "syntax-error") = .error .UnknownCommand := by
  decide
example : parseCommand (strB "") = .error .BadFormat := by decide
example : parseCommand (strB " ") = .error .BadFormat := by decide
example : parseCommand (strB "reserve") = .ok .Reserve := by decide
example : parseCommand (strB "reserve ") = .error .BadFormat := by decide
example : parseCommand (strB "bury 543 987") = .ok (.Bury 543 987) := by decide
example : parseCommand (strB "use foo#bar") = .error .BadFormat := by decide
example : parseCommand (strB "use tube_name_here-098+/;.()-") =
    .ok (.Use (strB "tube_name_here-098+/;.()-")) := by decide

/-! ## Tokenisation lemmas -/

theorem spacePos_le (s : List Nat) : spacePos s ≤ s.length := by
  induction s with
  | nil => simp [spacePos]
  | cons c rest ih =>
      simp only [spacePos, List.length_cons]
      split <;> omega

theorem spacePos_of_not_mem {s : List Nat} (h : (32 : Nat) ∉ s) :
    spacePos s = s.length := by
  induction s with
  | nil => simp [spacePos]
  | cons c rest ih =>
      have hc : c ≠ 32 := by rintro rfl; exact h (List.mem_cons_self _ _)
      have hr : (32 : Nat) ∉ rest := fun hm => h (List.mem_cons_of_mem _ hm)
      simp only [spacePos, List.length_cons, if_neg hc, ih hr]

theorem not_mem_of_spacePos_eq {s : List Nat} (h : spacePos s = s.length) :
    (32 : Nat) ∉ s := by
  induction s with
  | nil => simp
  | cons c rest ih =>
      simp only [spacePos, List.length_cons] at h
      by_cases hc : c = 32
      · rw [if_pos hc] at h
        have := spacePos_le rest
        omega
      · rw [if_neg hc] at h
        intro hmem
        rcases List.mem_cons.mp hmem with he | hm
        · exact hc he.symm
        · exact ih (by omega) hm

theorem spacePos_append_space {s : List Nat} (h : (32 : Nat) ∉ s)
    (x : List Nat) : spacePos (s ++ 32 :: x) = s.length := by
  induction s with
  | nil => simp [spacePos]
  | cons c rest ih =>
      have hc : c ≠ 32 := by rintro rfl; exact h (List.mem_cons_self _ _)
      have hr : (32 : Nat) ∉ rest := fun hm => h (List.mem_cons_of_mem _ hm)
      simp only [List.cons_append, spacePos, List.length_cons, if_neg hc]
      exact congrArg (· + 1) (ih hr)

theorem spacePos_append_of_lt {s : List Nat} (h : spacePos s < s.length)
    (y : List Nat) : spacePos (s ++ y) = spacePos s := by
  induction s with
  | nil => simp at h
  | cons c rest ih =>
      by_cases hc : c = 32
      · simp [spacePos, hc]
      · simp only [spacePos, List.length_cons, if_neg hc] at h
        simp only [List.cons_append, spacePos, if_neg hc]
        exact congrArg (· + 1) (ih (by omega))

theorem next_token_no_space {s : List Nat} (hne : s ≠ [])
    (h : (32 : Nat) ∉ s) : next_token s = some (s, []) := by
  unfold next_token
  rw [if_neg (by simpa using hne), spacePos_of_not_mem h,
    List.take_length, List.drop_length]

theorem next_token_space_append {w : List Nat} (h : (32 : Nat) ∉ w)
    (x : List Nat) : next_token (w ++ 32 :: x) = some (w, 32 :: x) := by
  unfold next_token
  rw [if_neg (by simp), spacePos_append_space h x, List.take_left,
    List.drop_left]

theorem expect_next_token_no_space {s : List Nat} (hne : s ≠ [])
    (h : (32 : Nat) ∉ s) : expect_next_token s = .ok (s, []) := by
  unfold expect_next_token
  rw [next_token_no_space hne h]
  simp [List.length_eq_zero, hne]

theorem expect_next_token_space_append {w : List Nat} (hne : w ≠ [])
    (h : (32 : Nat) ∉ w) (x : List Nat) :
    expect_next_token (w ++ 32 :: x) = .ok (w, 32 :: x) := by
  unfold expect_next_token
  rw [next_token_space_append h x]
  simp [List.length_eq_zero, hne]

/-- Splitting off everything at and beyond the first space. -/
theorem spacePos_split {s : List Nat} (h : spacePos s < s.length) :
    ∃ u, s = s.take (spacePos s) ++ 32 :: u ∧
      (32 : Nat) ∉ s.take (spacePos s) := by
  induction s with
  | nil => simp at h
  | cons c rest ih =>
      by_cases hc : c = 32
      · refine ⟨rest, ?_, ?_⟩ <;> simp [spacePos, hc]
      · simp only [spacePos, List.length_cons, if_neg hc] at h ⊢
        obtain ⟨u, hu, hmem⟩ := ih (by omega)
        refine ⟨u, ?_, ?_⟩
        · simp only [List.take_succ_cons, List.cons_append]
          exact congrArg (c :: ·) hu
        · simp only [List.take_succ_cons, List.mem_cons, not_or]
          exact ⟨fun he => hc he.symm, hmem⟩

/-! ## Extension stability: appending `" " ++ x` to a frame leaves a
successful field parse unchanged, with the appended bytes unconsumed. -/

theorem next_token_ext {s t r : List Nat} (h : next_token s = some (t, r))
    (x : List Nat) : next_token (s ++ 32 :: x) = some (t, r ++ 32 :: x) := by
  unfold next_token at h ⊢
  by_cases hs : s.length = 0
  · rw [if_pos hs] at h; cases h
  · rw [if_neg hs] at h
    rw [Option.some.injEq, Prod.mk.injEq] at h
    obtain ⟨ht, hr⟩ := h
    rw [if_neg (by simp)]
    rcases lt_or_eq_of_le (spacePos_le s) with hlt | heq
    · rw [spacePos_append_of_lt hlt,
        List.take_append_of_le_length (le_of_lt hlt),
        List.drop_append_of_le_length (le_of_lt hlt), ht, hr]
    · have hnm := not_mem_of_spacePos_eq heq
      rw [spacePos_append_space hnm, List.take_left, List.drop_left, ← ht,
        ← hr, heq, List.take_length, List.drop_length]
      simp

theorem expect_next_token_ext : ExtOk expect_next_token := by
  intro s x t r h
  unfold expect_next_token at h ⊢
  cases hnt : next_token s with
  | none => rw [hnt] at h; cases h
  | some p =>
      obtain ⟨t0, r0⟩ := p
      rw [hnt] at h
      rw [next_token_ext hnt x]
      dsimp only at h ⊢
      by_cases h0 : t0.length = 0
      · rw [if_pos h0] at h; cases h
      · rw [if_neg h0] at h ⊢
        rw [Except.ok.injEq, Prod.mk.injEq] at h
        rw [h.1, h.2]

/-- Inversion for `expect_space`: success means the input began with a
space. -/
theorem expect_space_eq {s r : List Nat} (h : expect_space s = .ok r) :
    s = 32 :: r := by
  unfold expect_space at h
  split at h
  · rw [Except.ok.injEq] at h
    rw [h]
  · cases h

theorem expect_space_ext {s r : List Nat} (h : expect_space s = .ok r)
    (x : List Nat) : expect_space (s ++ 32 :: x) = .ok (r ++ 32 :: x) := by
  rw [expect_space_eq h]
  rfl

theorem expect_next_u32_ext : ExtOk expect_next_u32 := by
  intro s x a r h
  unfold expect_next_u32 at h ⊢
  cases hsp : expect_space s with
  | error e => rw [hsp] at h; cases h
  | ok s1 =>
      rw [hsp] at h
      rw [expect_space_ext hsp x]
      dsimp only at h ⊢
      cases hnt : expect_next_token s1 with
      | error e => rw [hnt] at h; cases h
      | ok p =>
          obtain ⟨t, s2⟩ := p
          rw [hnt] at h
          rw [expect_next_token_ext s1 x t s2 hnt]
          dsimp only at h ⊢
          cases hac : accumDigits (2 ^ 32) 0 t with
          | error e => rw [hac] at h; cases h
          | ok v =>
              rw [hac] at h
              dsimp only at h
              rw [Except.ok.injEq, Prod.mk.injEq] at h
              rw [h.1, h.2]

theorem expect_next_u64_ext : ExtOk expect_next_u64 := by
  intro s x a r h
  unfold expect_next_u64 at h ⊢
  cases hsp : expect_space s with
  | error e => rw [hsp] at h; cases h
  | ok s1 =>
      rw [hsp] at h
      rw [expect_space_ext hsp x]
      dsimp only at h ⊢
      cases hnt : expect_next_token s1 with
      | error e => rw [hnt] at h; cases h
      | ok p =>
          obtain ⟨t, s2⟩ := p
          rw [hnt] at h
          rw [expect_next_token_ext s1 x t s2 hnt]
          dsimp only at h ⊢
          cases hac : accumDigits (2 ^ 64) 0 t with
          | error e => rw [hac] at h; cases h
          | ok v =>
              rw [hac] at h
              dsimp only at h
              rw [Except.ok.injEq, Prod.mk.injEq] at h
              rw [h.1, h.2]

theorem expect_next_name_ext : ExtOk expect_next_name := by
  intro s x a r h
  unfold expect_next_name at h ⊢
  cases hsp : expect_space s with
  | error e => rw [hsp] at h; cases h
  | ok s1 =>
      rw [hsp] at h
      rw [expect_space_ext hsp x]
      dsimp only at h ⊢
      cases hnt : expect_next_token s1 with
      | error e => rw [hnt] at h; cases h
      | ok p =>
          obtain ⟨t, s2⟩ := p
          rw [hnt] at h
          rw [expect_next_token_ext s1 x t s2 hnt]
          dsimp only at h ⊢
          by_cases hok : name_all t ∧ t.length ≤ 200
          · rw [if_pos hok] at h ⊢
            rw [Except.ok.injEq, Prod.mk.injEq] at h
            rw [h.1, h.2]
          · rw [if_neg hok] at h; cases h

theorem field_none_ext (c : BeanstalkCommand) : ExtOk (field_none c) := by
  intro s x a r h
  unfold field_none at h ⊢
  rw [Except.ok.injEq, Prod.mk.injEq] at h
  rw [h.1, h.2]

theorem field_u64_ext (f : Nat → BeanstalkCommand) : ExtOk (field_u64 f) := by
  intro s x a r h
  unfold field_u64 at h ⊢
  cases h1 : expect_next_u64 s with
  | error e => rw [h1] at h; cases h
  | ok p =>
      obtain ⟨v, s1⟩ := p
      rw [h1] at h
      rw [expect_next_u64_ext s x v s1 h1]
      dsimp only at h ⊢
      rw [Except.ok.injEq, Prod.mk.injEq] at h
      rw [h.1, h.2]

theorem field_u32_ext (f : Nat → BeanstalkCommand) : ExtOk (field_u32 f) := by
  intro s x a r h
  unfold field_u32 at h ⊢
  cases h1 : expect_next_u32 s with
  | error e => rw [h1] at h; cases h
  | ok p =>
      obtain ⟨v, s1⟩ := p
      rw [h1] at h
      rw [expect_next_u32_ext s x v s1 h1]
      dsimp only at h ⊢
      rw [Except.ok.injEq, Prod.mk.injEq] at h
      rw [h.1, h.2]

theorem field_name_ext (f : List Nat → BeanstalkCommand) :
    ExtOk (field_name f) := by
  intro s x a r h
  unfold field_name at h ⊢
  cases h1 : expect_next_name s with
  | error e => rw [h1] at h; cases h
  | ok p =>
      obtain ⟨v, s1⟩ := p
      rw [h1] at h
      rw [expect_next_name_ext s x v s1 h1]
      dsimp only at h ⊢
      rw [Except.ok.injEq, Prod.mk.injEq] at h
      rw [h.1, h.2]

theorem field_u64_u32_ext (f : Nat → Nat → BeanstalkCommand) :
    ExtOk (field_u64_u32 f) := by
  intro s x a r h
  unfold field_u64_u32 at h ⊢
  cases h1 : expect_next_u64 s with
  | error e => rw [h1] at h; cases h
  | ok p =>
      obtain ⟨v1, s1⟩ := p
      rw [h1] at h
      rw [expect_next_u64_ext s x v1 s1 h1]
      dsimp only at h ⊢
      cases h2 : expect_next_u32 s1 with
      | error e => rw [h2] at h; cases h
      | ok q =>
          obtain ⟨v2, s2⟩ := q
          rw [h2] at h
          rw [expect_next_u32_ext s1 x v2 s2 h2]
          dsimp only at h ⊢
          rw [Except.ok.injEq, Prod.mk.injEq] at h
          rw [h.1, h.2]

theorem field_name_u32_ext (f : List Nat → Nat → BeanstalkCommand) :
    ExtOk (field_name_u32 f) := by
  intro s x a r h
  unfold field_name_u32 at h ⊢
  cases h1 : expect_next_name s with
  | error e => rw [h1] at h; cases h
  | ok p =>
      obtain ⟨v1, s1⟩ := p
      rw [h1] at h
      rw [expect_next_name_ext s x v1 s1 h1]
      dsimp only at h ⊢
      cases h2 : expect_next_u32 s1 with
      | error e => rw [h2] at h; cases h
      | ok q =>
          obtain ⟨v2, s2⟩ := q
          rw [h2] at h
          rw [expect_next_u32_ext s1 x v2 s2 h2]
          dsimp only at h ⊢
          rw [Except.ok.injEq, Prod.mk.injEq] at h
          rw [h.1, h.2]

theorem field_u64_u32_u32_ext (f : Nat → Nat → Nat → BeanstalkCommand) :
    ExtOk (field_u64_u32_u32 f) := by
  intro s x a r h
  unfold field_u64_u32_u32 at h ⊢
  cases h1 : expect_next_u64 s with
  | error e => rw [h1] at h; cases h
  | ok p =>
      obtain ⟨v1, s1⟩ := p
      rw [h1] at h
      rw [expect_next_u64_ext s x v1 s1 h1]
      dsimp only at h ⊢
      cases h2 : expect_next_u32 s1 with
      | error e => rw [h2] at h; cases h
      | ok q =>
          obtain ⟨v2, s2⟩ := q
          rw [h2] at h
          rw [expect_next_u32_ext s1 x v2 s2 h2]
          dsimp only at h ⊢
          cases h3 : expect_next_u32 s2 with
          | error e => rw [h3] at h; cases h
          | ok w =>
              obtain ⟨v3, s3⟩ := w
              rw [h3] at h
              rw [expect_next_u32_ext s2 x v3 s3 h3]
              dsimp only at h ⊢
              rw [Except.ok.injEq, Prod.mk.injEq] at h
              rw [h.1, h.2]

theorem field_u32x4_ext (f : Nat → Nat → Nat → Nat → BeanstalkCommand) :
    ExtOk (field_u32x4 f) := by
  intro s x a r h
  unfold field_u32x4 at h ⊢
  cases h1 : expect_next_u32 s with
  | error e => rw [h1] at h; cases h
  | ok p =>
      obtain ⟨v1, s1⟩ := p
      rw [h1] at h
      rw [expect_next_u32_ext s x v1 s1 h1]
      dsimp only at h ⊢
      cases h2 : expect_next_u32 s1 with
      | error e => rw [h2] at h; cases h
      | ok q =>
          obtain ⟨v2, s2⟩ := q
          rw [h2] at h
          rw [expect_next_u32_ext s1 x v2 s2 h2]
          dsimp only at h ⊢
          cases h3 : expect_next_u32 s2 with
          | error e => rw [h3] at h; cases h
          | ok w =>
              obtain ⟨v3, s3⟩ := w
              rw [h3] at h
              rw [expect_next_u32_ext s2 x v3 s3 h3]
              dsimp only at h ⊢
              cases h4 : expect_next_u32 s3 with
              | error e => rw [h4] at h; cases h
              | ok u =>
                  obtain ⟨v4, s4⟩ := u
                  rw [h4] at h
                  rw [expect_next_u32_ext s3 x v4 s4 h4]
                  dsimp only at h ⊢
                  rw [Except.ok.injEq, Prod.mk.injEq] at h
                  rw [h.1, h.2]

theorem dispatch_ext (t : List Nat) : ExtOk (dispatch t) := by
  unfold dispatch
  by_cases h1 : t = strB "list-tube-used"
  · simp only [if_pos h1]; exact field_none_ext _
  simp only [if_neg h1]
  by_cases h2 : t = strB "list-tubes-watched"
  · simp only [if_pos h2]; exact field_none_ext _
  simp only [if_neg h2]
  by_cases h3 : t = strB "list-tubes"
  · simp only [if_pos h3]; exact field_none_ext _
  simp only [if_neg h3]
  by_cases h4 : t = strB "peek-buried"
  · simp only [if_pos h4]; exact field_none_ext _
  simp only [if_neg h4]
  by_cases h5 : t = strB "peek-delayed"
  · simp only [if_pos h5]; exact field_none_ext _
  simp only [if_neg h5]
  by_cases h6 : t = strB "peek-ready"
  · simp only [if_pos h6]; exact field_none_ext _
  simp only [if_neg h6]
  by_cases h7 : t = strB "quit"
  · simp only [if_pos h7]; exact field_none_ext _
  simp only [if_neg h7]
  by_cases h8 : t = strB "reserve"
  · simp only [if_pos h8]; exact field_none_ext _
  simp only [if_neg h8]
  by_cases h9 : t = strB "stats"
  · simp only [if_pos h9]; exact field_none_ext _
  simp only [if_neg h9]
  by_cases h10 : t = strB "delete"
  · simp only [if_pos h10]; exact field_u64_ext _
  simp only [if_neg h10]
  by_cases h11 : t = strB "kick"
  · simp only [if_pos h11]; exact field_u64_ext _
  simp only [if_neg h11]
  by_cases h12 : t = strB "kick-job"
  · simp only [if_pos h12]; exact field_u64_ext _
  simp only [if_neg h12]
  by_cases h13 : t = strB "peek"
  · simp only [if_pos h13]; exact field_u64_ext _
  simp only [if_neg h13]
  by_cases h14 : t = strB "reserve-job"
  · simp only [if_pos h14]; exact field_u64_ext _
  simp only [if_neg h14]
  by_cases h15 : t = strB "stats-job"
  · simp only [if_pos h15]; exact field_u64_ext _
  simp only [if_neg h15]
  by_cases h16 : t = strB "touch"
  · simp only [if_pos h16]; exact field_u64_ext _
  simp only [if_neg h16]
  by_cases h17 : t = strB "reserve-with-timeout"
  · simp only [if_pos h17]; exact field_u32_ext _
  simp only [if_neg h17]
  by_cases h18 : t = strB "use"
  · simp only [if_pos h18]; exact field_name_ext _
  simp only [if_neg h18]
  by_cases h19 : t = strB "watch"
  · simp only [if_pos h19]; exact field_name_ext _
  simp only [if_neg h19]
  by_cases h20 : t = strB "ignore"
  · simp only [if_pos h20]; exact field_name_ext _
  simp only [if_neg h20]
  by_cases h21 : t = strB "stats-tube"
  · simp only [if_pos h21]; exact field_name_ext _
  simp only [if_neg h21]
  by_cases h22 : t = strB "bury"
  · simp only [if_pos h22]; exact field_u64_u32_ext _
  simp only [if_neg h22]
  by_cases h23 : t = strB "pause-tube"
  · simp only [if_pos h23]; exact field_name_u32_ext _
  simp only [if_neg h23]
  by_cases h24 : t = strB "release"
  · simp only [if_pos h24]; exact field_u64_u32_u32_ext _
  simp only [if_neg h24]
  by_cases h25 : t = strB "put"
  · simp only [if_pos h25]; exact field_u32x4_ext _
  simp only [if_neg h25]
  intro s x a r h
  cases h

theorem parseCmdBody_ext : ExtOk parseCmdBody := by
  intro s x a r h
  unfold parseCmdBody at h ⊢
  cases hnt : expect_next_token s with
  | error e => rw [hnt] at h; cases h
  | ok p =>
      obtain ⟨t, s1⟩ := p
      rw [hnt] at h
      rw [expect_next_token_ext s x t s1 hnt]
      dsimp only at h ⊢
      exact dispatch_ext t s1 x a r h

/-- Unknown leading token: the dispatch falls through every arm. -/
theorem dispatch_unknown {t : List Nat} (h : t ∉ commandNames)
    (s : List Nat) : dispatch t s = .error .UnknownCommand := by
  simp only [commandNames, List.mem_cons, List.mem_singleton, not_or] at h
  obtain ⟨n1, n2, n3, n4, n5, n6, n7, n8, n9, n10, n11, n12, n13, n14, n15,
    n16, n17, n18, n19, n20, n21, n22, n23, n24, n25⟩ := h
  unfold dispatch
  rw [if_neg n1, if_neg n2, if_neg n3, if_neg n4, if_neg n5, if_neg n6,
    if_neg n7, if_neg n8, if_neg n9, if_neg n10, if_neg n11, if_neg n12,
    if_neg n13, if_neg n14, if_neg n15, if_neg n16, if_neg n17, if_neg n18,
    if_neg n19, if_neg n20, if_neg n21, if_neg n22, if_neg n23, if_neg n24,
    if_neg n25.1]

/-! ## Checked decimal accumulation -/

theorem decValFrom_ge (ds : List Nat) : ∀ r, r ≤ decValFrom r ds := by
  induction ds with
  | nil => intro r; exact le_refl r
  | cons d ds ih =>
      intro r
      calc r ≤ r * 10 + (d - 48) := by omega
      _ ≤ decValFrom (r * 10 + (d - 48)) ds := ih _

theorem accumDigits_ok {W : Nat} : ∀ (ds : List Nat) (r : Nat), r < W →
    (∀ d ∈ ds, 48 ≤ d ∧ d ≤ 57) → decValFrom r ds < W →
    accumDigits W r ds = .ok (decValFrom r ds) := by
  intro ds
  induction ds with
  | nil => intro r _ _ _; rfl
  | cons d ds ih =>
      intro r hr hd hv
      have hdig := hd d (List.mem_cons_self _ _)
      have hrest : ∀ e ∈ ds, 48 ≤ e ∧ e ≤ 57 := fun e he =>
        hd e (List.mem_cons_of_mem _ he)
      have hv' : decValFrom (r * 10 + (d - 48)) ds < W := hv
      have hstep : r * 10 + (d - 48) < W :=
        lt_of_le_of_lt (decValFrom_ge ds _) hv'
      have hmul : r * 10 < W := by omega
      unfold accumDigits
      rw [if_pos hdig, if_pos hmul, if_pos hstep]
      exact ih _ hstep hrest hv'

theorem accumDigits_overflow {W : Nat} : ∀ (ds : List Nat) (r : Nat), r < W →
    (∀ d ∈ ds, 48 ≤ d ∧ d ≤ 57) → W ≤ decValFrom r ds →
    accumDigits W r ds = .error .BadFormat := by
  intro ds
  induction ds with
  | nil =>
      intro r hr _ hv
      have : decValFrom r [] = r := rfl
      omega
  | cons d ds ih =>
      intro r hr hd hv
      have hdig := hd d (List.mem_cons_self _ _)
      have hrest : ∀ e ∈ ds, 48 ≤ e ∧ e ≤ 57 := fun e he =>
        hd e (List.mem_cons_of_mem _ he)
      unfold accumDigits
      rw [if_pos hdig]
      by_cases hmul : r * 10 < W
      · rw [if_pos hmul]
        by_cases hstep : r * 10 + (d - 48) < W
        · rw [if_pos hstep]
          exact ih _ hstep hrest hv
        · rw [if_neg hstep]
      · rw [if_neg hmul]

theorem accumDigits_nondigit {W : Nat} : ∀ (ds : List Nat) (r d : Nat),
    d ∈ ds → ¬(48 ≤ d ∧ d ≤ 57) →
    accumDigits W r ds = .error .BadFormat := by
  intro ds
  induction ds with
  | nil => intro r d hd; cases hd
  | cons e ds ih =>
      intro r d hd hnd
      unfold accumDigits
      rcases List.mem_cons.mp hd with rfl | hmem
      · rw [if_neg hnd]
      · by_cases hdig : 48 ≤ e ∧ e ≤ 57
        · rw [if_pos hdig]
          by_cases hmul : r * 10 < W
          · rw [if_pos hmul]
            by_cases hstep : r * 10 + (e - 48) < W
            · rw [if_pos hstep]
              exact ih _ d hmem hnd
            · rw [if_neg hstep]
          · rw [if_neg hmul]
        · rw [if_neg hdig]

/-! ## The reference decimal encoding -/

theorem natToDec_digits (n : Nat) : ∀ d ∈ natToDec n, 48 ≤ d ∧ d ≤ 57 := by
  induction n using Nat.strong_induction_on with
  | _ n ih =>
      unfold natToDec
      by_cases h : n < 10
      · rw [if_pos h]
        intro d hd
        simp only [List.mem_singleton] at hd
        omega
      · rw [if_neg h]
        intro d hd
        rcases List.mem_append.mp hd with h1 | h2
        · exact ih (n / 10) (Nat.div_lt_self (by omega) (by omega)) d h1
        · simp only [List.mem_singleton] at h2
          have := Nat.mod_lt n (show 0 < 10 by omega)
          omega

theorem natToDec_ne_nil (n : Nat) : natToDec n ≠ [] := by
  unfold natToDec
  by_cases h : n < 10
  · rw [if_pos h]; simp
  · rw [if_neg h]; simp

theorem natToDec_no_space (n : Nat) : (32 : Nat) ∉ natToDec n := by
  intro hm
  have := natToDec_digits n 32 hm
  omega

theorem decVal_natToDec (n : Nat) : decVal (natToDec n) = n := by
  induction n using Nat.strong_induction_on with
  | _ n ih =>
      unfold natToDec
      by_cases h : n < 10
      · rw [if_pos h]
        show 0 * 10 + (48 + n - 48) = n
        omega
      · rw [if_neg h]
        have ihq := ih (n / 10) (Nat.div_lt_self (by omega) (by omega))
        unfold decVal decValFrom at ihq ⊢
        rw [List.foldl_append]
        rw [ihq]
        show n / 10 * 10 + (48 + n % 10 - 48) = n
        omega

theorem natToDec_lt_ten (n : Nat) (h : n < 10) : natToDec n = [48 + n] := by
  unfold natToDec
  rw [if_pos h]

/-! ## Characterisation of the numeric field parsers -/

theorem expect_next_u32_dec_end {n : Nat} (h : n < 2 ^ 32) :
    expect_next_u32 (32 :: natToDec n) = .ok (n, []) := by
  unfold expect_next_u32
  rw [show expect_space (32 :: natToDec n) = .ok (natToDec n) from rfl]
  dsimp only
  rw [expect_next_token_no_space (natToDec_ne_nil n) (natToDec_no_space n)]
  dsimp only
  have hval : decValFrom 0 (natToDec n) < 2 ^ 32 := by
    have : decValFrom 0 (natToDec n) = n := decVal_natToDec n
    omega
  rw [accumDigits_ok (natToDec n) 0 (by norm_num) (natToDec_digits n) hval]
  rw [show decValFrom 0 (natToDec n) = n from decVal_natToDec n]

theorem expect_next_u64_dec_end {n : Nat} (h : n < 2 ^ 64) :
    expect_next_u64 (32 :: natToDec n) = .ok (n, []) := by
  unfold expect_next_u64
  rw [show expect_space (32 :: natToDec n) = .ok (natToDec n) from rfl]
  dsimp only
  rw [expect_next_token_no_space (natToDec_ne_nil n) (natToDec_no_space n)]
  dsimp only
  have hval : decValFrom 0 (natToDec n) < 2 ^ 64 := by
    have : decValFrom 0 (natToDec n) = n := decVal_natToDec n
    omega
  rw [accumDigits_ok (natToDec n) 0 (by norm_num) (natToDec_digits n) hval]
  rw [show decValFrom 0 (natToDec n) = n from decVal_natToDec n]

theorem expect_next_u32_overflow {t : List Nat} (hne : t ≠ [])
    (hns : (32 : Nat) ∉ t) (hd : ∀ d ∈ t, 48 ≤ d ∧ d ≤ 57)
    (hv : 2 ^ 32 ≤ decVal t) :
    expect_next_u32 (32 :: t) = .error .BadFormat := by
  unfold expect_next_u32
  rw [show expect_space (32 :: t) = .ok t from rfl]
  dsimp only
  rw [expect_next_token_no_space hne hns]
  dsimp only
  rw [accumDigits_overflow t 0 (by norm_num) hd hv]

theorem expect_next_u64_overflow {t : List Nat} (hne : t ≠ [])
    (hns : (32 : Nat) ∉ t) (hd : ∀ d ∈ t, 48 ≤ d ∧ d ≤ 57)
    (hv : 2 ^ 64 ≤ decVal t) :
    expect_next_u64 (32 :: t) = .error .BadFormat := by
  unfold expect_next_u64
  rw [show expect_space (32 :: t) = .ok t from rfl]
  dsimp only
  rw [expect_next_token_no_space hne hns]
  dsimp only
  rw [accumDigits_overflow t 0 (by norm_num) hd hv]

theorem expect_next_u32_nondigit {t : List Nat} {d : Nat}
    (hns : (32 : Nat) ∉ t) (hd : d ∈ t) (hnd : ¬(48 ≤ d ∧ d ≤ 57)) :
    expect_next_u32 (32 :: t) = .error .BadFormat := by
  unfold expect_next_u32
  rw [show expect_space (32 :: t) = .ok t from rfl]
  dsimp only
  rw [expect_next_token_no_space (List.ne_nil_of_mem hd) hns]
  dsimp only
  rw [accumDigits_nondigit t 0 d hd hnd]

theorem expect_next_u64_nondigit {t : List Nat} {d : Nat}
    (hns : (32 : Nat) ∉ t) (hd : d ∈ t) (hnd : ¬(48 ≤ d ∧ d ≤ 57)) :
    expect_next_u64 (32 :: t) = .error .BadFormat := by
  unfold expect_next_u64
  rw [show expect_space (32 :: t) = .ok t from rfl]
  dsimp only
  rw [expect_next_token_no_space (List.ne_nil_of_mem hd) hns]
  dsimp only
  rw [accumDigits_nondigit t 0 d hd hnd]

/-- A leading space makes the next token empty, which is rejected. -/
theorem expect_next_token_leading_space (x : List Nat) :
    expect_next_token (32 :: x) = .error .BadFormat := by
  unfold expect_next_token next_token
  rw [if_neg (by simp)]
  have hz : spacePos (32 :: x) = 0 := by simp [spacePos]
  rw [hz]
  rfl

theorem expect_next_u32_empty_end :
    expect_next_u32 [32] = .error .BadFormat := by decide

theorem expect_next_u64_empty_end :
    expect_next_u64 [32] = .error .BadFormat := by decide

theorem expect_next_u32_empty_mid (x : List Nat) :
    expect_next_u32 (32 :: 32 :: x) = .error .BadFormat := by
  unfold expect_next_u32
  rw [show expect_space (32 :: 32 :: x) = .ok (32 :: x) from rfl]
  dsimp only
  rw [expect_next_token_leading_space x]

theorem expect_next_u64_empty_mid (x : List Nat) :
    expect_next_u64 (32 :: 32 :: x) = .error .BadFormat := by
  unfold expect_next_u64
  rw [show expect_space (32 :: 32 :: x) = .ok (32 :: x) from rfl]
  dsimp only
  rw [expect_next_token_leading_space x]

/-! ## Command-level parser facts -/

theorem parseCommand_unknown {s t s1 : List Nat}
    (h : expect_next_token s = .ok (t, s1)) (hn : t ∉ commandNames) :
    parseCommand s = .error .UnknownCommand := by
  unfold parseCommand parseCmdBody
  rw [h]
  dsimp only
  rw [dispatch_unknown hn s1]

theorem parseCommand_trailing {s : List Nat} {c : BeanstalkCommand}
    (h : parseCommand s = .ok c) (x : List Nat) :
    parseCommand (s ++ 32 :: x) = .error .BadFormat := by
  unfold parseCommand at h ⊢
  cases hb : parseCmdBody s with
  | error e => rw [hb] at h; cases h
  | ok p =>
      obtain ⟨c0, rest⟩ := p
      rw [hb] at h
      dsimp only at h
      unfold expect_done_and at h
      by_cases hr : rest.length = 0
      · have hnil : rest = [] := List.length_eq_zero.mp hr
        subst hnil
        rw [parseCmdBody_ext s x c0 [] hb]
        dsimp only
        unfold expect_done_and
        rw [if_neg (by simp)]
      · rw [if_neg hr] at h; cases h

theorem parse_delete_roundtrip {id : Nat} (h : id < 2 ^ 64) :
    parseCommand (strB "delete " ++ natToDec id) = .ok (.Delete id) := by
  have hsp : strB "delete " = strB "delete" ++ [32] := by decide
  rw [hsp, List.append_assoc, List.singleton_append]
  unfold parseCommand parseCmdBody
  rw [expect_next_token_space_append (by decide) (by decide) (natToDec id)]
  dsimp only
  unfold dispatch
  rw [if_neg (by decide), if_neg (by decide), if_neg (by decide),
    if_neg (by decide), if_neg (by decide), if_neg (by decide),
    if_neg (by decide), if_neg (by decide), if_neg (by decide), if_pos rfl]
  unfold field_u64
  rw [expect_next_u64_dec_end h]
  dsimp only
  rfl

theorem parse_put_roundtrip {pri delay ttr nb : Nat} (h1 : pri < 2 ^ 32)
    (h2 : delay < 2 ^ 32) (h3 : ttr < 2 ^ 32) (h4 : nb < 2 ^ 32) :
    parseCommand (strB "put " ++ natToDec pri ++ strB " " ++ natToDec delay ++
        strB " " ++ natToDec ttr ++ strB " " ++ natToDec nb) =
      .ok (.Put pri delay ttr nb) := by
  have hp : strB "put " = strB "put" ++ [32] := by decide
  have hs : strB " " = [32] := by decide
  rw [hp, hs]
  simp only [List.append_assoc, List.singleton_append, List.cons_append,
    List.nil_append]
  unfold parseCommand parseCmdBody
  rw [expect_next_token_space_append (by decide) (by decide)
    (natToDec pri ++ 32 :: (natToDec delay ++ 32 ::
      (natToDec ttr ++ 32 :: natToDec nb)))]
  dsimp only
  unfold dispatch
  rw [if_neg (by decide), if_neg (by decide), if_neg (by decide),
    if_neg (by decide), if_neg (by decide), if_neg (by decide),
    if_neg (by decide), if_neg (by decide), if_neg (by decide),
    if_neg (by decide), if_neg (by decide), if_neg (by decide),
    if_neg (by decide), if_neg (by decide), if_neg (by decide),
    if_neg (by decide), if_neg (by decide), if_neg (by decide),
    if_neg (by decide), if_neg (by decide), if_neg (by decide),
    if_neg (by decide), if_neg (by decide), if_neg (by decide), if_pos rfl]
  unfold field_u32x4
  have e1 := expect_next_u32_ext (32 :: natToDec pri)
    (natToDec delay ++ 32 :: (natToDec ttr ++ 32 :: natToDec nb)) pri []
    (expect_next_u32_dec_end h1)
  simp only [List.cons_append, List.nil_append] at e1
  rw [e1]
  dsimp only
  have e2 := expect_next_u32_ext (32 :: natToDec delay)
    (natToDec ttr ++ 32 :: natToDec nb) delay []
    (expect_next_u32_dec_end h2)
  simp only [List.cons_append, List.nil_append] at e2
  rw [e2]
  dsimp only
  have e3 := expect_next_u32_ext (32 :: natToDec ttr) (natToDec nb) ttr []
    (expect_next_u32_dec_end h3)
  simp only [List.cons_append, List.nil_append] at e3
  rw [e3]
  dsimp only
  rw [expect_next_u32_dec_end h4]
  dsimp only
  rfl

/-! ## Tube names -/

theorem char_is_name_safe_true_iff (c : Nat) :
    (char_is_name_safe c true = true) ↔ specAllowedByte c := by
  unfold char_is_name_safe specAllowedByte
  simp only [List.mem_cons, List.not_mem_nil, or_false]
  split_ifs <;> simp_all

theorem char_is_name_safe_false_iff (d : Nat) :
    (char_is_name_safe d false = true) ↔ (specAllowedByte d ∨ d = 45) := by
  unfold char_is_name_safe specAllowedByte
  simp only [List.mem_cons, List.not_mem_nil, or_false]
  split_ifs <;> simp_all

theorem specValidTubeName_iff (t : List Nat) :
    specValidTubeName t ↔ (t ≠ [] ∧ name_all t = true ∧ t.length ≤ 200) := by
  cases t with
  | nil => simp [specValidTubeName]
  | cons c rest =>
      unfold specValidTubeName name_all
      simp only [Bool.and_eq_true, List.all_eq_true]
      constructor
      · rintro ⟨hlen, hfirst, hrest⟩
        refine ⟨by simp, ⟨?_, ?_⟩, hlen⟩
        · exact (char_is_name_safe_true_iff c).mpr hfirst
        · intro d hd
          exact (char_is_name_safe_false_iff d).mpr (hrest d hd)
      · rintro ⟨hne, ⟨hfirst, hrest⟩, hlen⟩
        exact ⟨hlen, (char_is_name_safe_true_iff c).mp hfirst,
          fun d hd => (char_is_name_safe_false_iff d).mp (hrest d hd)⟩

theorem specValidTubeName_no_space {t : List Nat} (h : (32 : Nat) ∈ t) :
    ¬ specValidTubeName t := by
  cases t with
  | nil => simp [specValidTubeName]
  | cons c rest =>
      intro hv
      unfold specValidTubeName at hv
      obtain ⟨_, hfirst, hrest⟩ := hv
      rcases List.mem_cons.mp h with he | hm
      · rw [← he] at hfirst
        exact absurd hfirst (by decide)
      · exact absurd (hrest 32 hm) (by decide)

/-- Full behaviour of the parser on `use <t>` for an arbitrary byte string
`t` in the tube-name position. -/
theorem parse_use (t : List Nat) :
    parseCommand (strB "use " ++ t) =
      if specValidTubeName t then .ok (.Use t) else .error .BadFormat := by
  have hu : strB "use " = strB "use" ++ [32] := by decide
  rw [hu, List.append_assoc, List.singleton_append]
  unfold parseCommand parseCmdBody
  rw [expect_next_token_space_append (by decide) (by decide) t]
  dsimp only
  unfold dispatch
  rw [if_neg (by decide), if_neg (by decide), if_neg (by decide),
    if_neg (by decide), if_neg (by decide), if_neg (by decide),
    if_neg (by decide), if_neg (by decide), if_neg (by decide),
    if_neg (by decide), if_neg (by decide), if_neg (by decide),
    if_neg (by decide), if_neg (by decide), if_neg (by decide),
    if_neg (by decide), if_neg (by decide), if_pos rfl]
  unfold field_name expect_next_name
  rw [show expect_space (32 :: t) = .ok t from rfl]
  dsimp only
  by_cases hemp : t = []
  · subst hemp
    rw [show expect_next_token ([] : List Nat) = .error .BadFormat from rfl]
    rw [if_neg (by simp [specValidTubeName])]
  · rcases lt_or_eq_of_le (spacePos_le t) with hlt | heq
    · -- `t` contains a space: the token is a proper non-empty split of `t`,
      -- and either the name check or the trailing-bytes check fails.
      obtain ⟨u, hu2, hnm⟩ := spacePos_split hlt
      have hwlen : (t.take (spacePos t)).length = spacePos t := by
        rw [List.length_take]
        omega
      have hnt : next_token t = some (t.take (spacePos t), 32 :: u) := by
        unfold next_token
        rw [if_neg (by simpa using hemp)]
        have hdrop : t.drop (spacePos t) = 32 :: u := by
          nth_rewrite 2 [hu2]
          rw [List.drop_left' hwlen]
        rw [hdrop]
      have hmem : (32 : Nat) ∈ t := by
        rw [hu2]
        exact List.mem_append.mpr (Or.inr (List.mem_cons_self _ _))
      rw [if_neg (specValidTubeName_no_space hmem)]
      unfold expect_next_token
      rw [hnt]
      dsimp only
      by_cases hw : (t.take (spacePos t)).length = 0
      · rw [if_pos hw]
      · rw [if_neg hw]
        dsimp only
        by_cases hck : (name_all (t.take (spacePos t)) = true) ∧
            (t.take (spacePos t)).length ≤ 200
        · rw [if_pos hck]
          dsimp only
          unfold expect_done_and
          rw [if_neg (by simp)]
        · rw [if_neg hck]
    · -- no space in `t`: the token is all of `t` and the name check decides.
      have hnm := not_mem_of_spacePos_eq heq
      rw [expect_next_token_no_space hemp hnm]
      dsimp only
      by_cases hck : (name_all t = true) ∧ t.length ≤ 200
      · rw [if_pos hck]
        dsimp only
        rw [if_pos ((specValidTubeName_iff t).mpr ⟨hemp, hck.1, hck.2⟩)]
        rfl
      · rw [if_neg hck]
        rw [if_neg (fun hv => hck (⟨((specValidTubeName_iff t).mp hv).2.1,
          ((specValidTubeName_iff t).mp hv).2.2⟩))]

/-! ## CRLF scanning -/

theorem pairAt_nil (j : Nat) : ¬ pairAt [] j := by simp [pairAt]

theorem pairAt_single (a : Nat) (j : Nat) : ¬ pairAt [a] j := by
  rintro ⟨h1, h2⟩
  obtain ⟨hlt, _⟩ := List.getElem?_eq_some_iff.mp h2
  simp at hlt

theorem pairAt_cons_succ (a : Nat) (l : List Nat) (j : Nat) :
    pairAt (a :: l) (j + 1) ↔ pairAt l j := by
  simp [pairAt]

theorem pairAt_cons2_zero (a b : Nat) (l : List Nat) :
    pairAt (a :: b :: l) 0 ↔ (a = 13 ∧ b = 10) := by
  simp [pairAt]

theorem pairAt_findPair : ∀ {l : List Nat} {i : Nat},
    findPair l = some i → pairAt l i := by
  intro l
  induction l with
  | nil => intro i h; simp [findPair] at h
  | cons a tail ih =>
      intro i h
      cases tail with
      | nil => simp [findPair] at h
      | cons b rest =>
          unfold findPair at h
          by_cases hab : a = 13 ∧ b = 10
          · rw [if_pos hab] at h
            injection h with h'
            rw [← h']
            exact (pairAt_cons2_zero a b rest).mpr hab
          · rw [if_neg hab] at h
            rw [Option.map_eq_some'] at h
            obtain ⟨j, hj, hji⟩ := h
            rw [← hji]
            exact (pairAt_cons_succ a (b :: rest) j).mpr (ih hj)

theorem findPair_min : ∀ {l : List Nat} {i : Nat}, findPair l = some i →
    ∀ j, j < i → ¬ pairAt l j := by
  intro l
  induction l with
  | nil => intro i h; simp [findPair] at h
  | cons a tail ih =>
      intro i h j hj
      cases tail with
      | nil => simp [findPair] at h
      | cons b rest =>
          unfold findPair at h
          by_cases hab : a = 13 ∧ b = 10
          · rw [if_pos hab] at h
            injection h with h'
            omega
          · rw [if_neg hab] at h
            rw [Option.map_eq_some'] at h
            obtain ⟨k, hk, hik⟩ := h
            cases j with
            | zero =>
                intro hp
                exact hab ((pairAt_cons2_zero a b rest).mp hp)
            | succ j0 =>
                intro hp
                exact ih hk j0 (by omega)
                  ((pairAt_cons_succ a (b :: rest) j0).mp hp)

theorem findPair_none : ∀ {l : List Nat}, findPair l = none →
    ∀ j, ¬ pairAt l j := by
  intro l
  induction l with
  | nil => intro _ j; exact pairAt_nil j
  | cons a tail ih =>
      intro h j
      cases tail with
      | nil => exact pairAt_single a j
      | cons b rest =>
          unfold findPair at h
          by_cases hab : a = 13 ∧ b = 10
          · rw [if_pos hab] at h; cases h
          · rw [if_neg hab] at h
            rw [Option.map_eq_none'] at h
            cases j with
            | zero =>
                intro hp
                exact hab ((pairAt_cons2_zero a b rest).mp hp)
            | succ j0 =>
                intro hp
                exact ih h j0 ((pairAt_cons_succ a (b :: rest) j0).mp hp)

theorem findPair_of_pairAt : ∀ {l : List Nat} {j : Nat}, pairAt l j →
    ∃ i, findPair l = some i ∧ i ≤ j := by
  intro l
  induction l with
  | nil => intro j hp; exact absurd hp (pairAt_nil j)
  | cons a tail ih =>
      intro j hp
      cases tail with
      | nil => exact absurd hp (pairAt_single a j)
      | cons b rest =>
          by_cases hab : a = 13 ∧ b = 10
          · refine ⟨0, ?_, Nat.zero_le j⟩
            unfold findPair
            rw [if_pos hab]
          · cases j with
            | zero => exact absurd ((pairAt_cons2_zero a b rest).mp hp) hab
            | succ j0 =>
                obtain ⟨i0, hi0, hle⟩ :=
                  ih ((pairAt_cons_succ a (b :: rest) j0).mp hp)
                refine ⟨i0 + 1, ?_, by omega⟩
                unfold findPair
                rw [if_neg hab, hi0]
                rfl

theorem findPair_none_of {l : List Nat} (h : ∀ j, ¬ pairAt l j) :
    findPair l = none := by
  cases hf : findPair l with
  | none => rfl
  | some i => exact absurd (pairAt_findPair hf) (h i)

theorem findPair_eq_of {l : List Nat} {i : Nat} (h1 : pairAt l i)
    (h2 : ∀ j, j < i → ¬ pairAt l j) : findPair l = some i := by
  obtain ⟨i0, hf, hle⟩ := findPair_of_pairAt h1
  rcases lt_or_eq_of_le hle with hlt | heq
  · exact absurd (pairAt_findPair hf) (h2 i0 hlt)
  · rw [heq] at hf
    exact hf

theorem findPair_bound {l : List Nat} {i : Nat} (h : findPair l = some i) :
    i + 2 ≤ l.length := by
  have hp := pairAt_findPair h
  obtain ⟨hlt, _⟩ := List.getElem?_eq_some_iff.mp hp.2
  omega

theorem pairAt_drop (l : List Nat) (m k : Nat) :
    pairAt (l.drop m) k ↔ pairAt l (m + k) := by
  unfold pairAt
  have e1 : m + (k + 1) = m + k + 1 := by omega
  rw [List.getElem?_drop, List.getElem?_drop, e1]

theorem pairAt_append_left {l1 : List Nat} (l2 : List Nat) {j : Nat}
    (h : j + 1 < l1.length) : pairAt (l1 ++ l2) j ↔ pairAt l1 j := by
  unfold pairAt
  rw [List.getElem?_append_left (by omega), List.getElem?_append_left h]

theorem findPair_drop_none {buf : List Nat} {mcf : Nat}
    (hinv : ∀ j, j < mcf → ¬ pairAt buf j)
    (hs : findPair (buf.drop mcf) = none) : findPair buf = none := by
  apply findPair_none_of
  intro j hp
  by_cases hj : j < mcf
  · exact hinv j hj hp
  · have hk : pairAt (buf.drop mcf) (j - mcf) := by
      rw [pairAt_drop]
      have e : mcf + (j - mcf) = j := by omega
      rw [e]
      exact hp
    exact findPair_none hs _ hk

theorem findPair_drop_some {buf : List Nat} {mcf e : Nat}
    (hinv : ∀ j, j < mcf → ¬ pairAt buf j)
    (hs : findPair (buf.drop mcf) = some e) :
    findPair buf = some (mcf + e) := by
  apply findPair_eq_of
  · exact (pairAt_drop buf mcf e).mp (pairAt_findPair hs)
  · intro j hj
    by_cases hjm : j < mcf
    · exact hinv j hjm
    · intro hp
      have hk : pairAt (buf.drop mcf) (j - mcf) := by
        rw [pairAt_drop]
        have e2 : mcf + (j - mcf) = j := by omega
        rw [e2]
        exact hp
      exact findPair_min hs (j - mcf) (by omega) hk

/-! ## Behaviour of `read_line` -/

theorem totalData_nil : totalData [] = [] := rfl

theorem totalData_chunk_cons (c : List Nat) (rest : List ReadEv) :
    totalData (ReadEv.chunk c :: rest) = c ++ totalData rest := rfl

/-- A successful scan yields the first buffered line and consumes it (plus
its CRLF) from the buffer, touching neither the reader nor the pending
error. -/
theorem frame_result_take {buf : List Nat} {mcf e : Nat}
    (hb : mcf + e + 2 ≤ buf.length) (reads : List ReadEv)
    (pe : Option Nat) :
    frame_result reads buf mcf e pe =
      (.ok (some (buf.take (mcf + e))),
       ⟨buf.drop (mcf + e + 2), 0, reads, pe⟩) := by
  unfold frame_result
  have hlen : (buf.take (mcf + e + 2)).length = mcf + e + 2 := by
    rw [List.length_take]
    omega
  rw [hlen, List.take_take]
  have e3 : mcf + e + 2 - 2 = mcf + e := by omega
  rw [e3, Nat.min_eq_left (by omega)]

theorem read_line_aux_frame {reads : List ReadEv} {buf : List Nat}
    {mcf e : Nat} (hs : findPair (buf.drop mcf) = some e)
    (pe : Option Nat) :
    read_line_aux reads buf mcf pe =
      (.ok (some (buf.take (mcf + e))),
       ⟨buf.drop (mcf + e + 2), 0, reads, pe⟩) := by
  have hb := findPair_bound hs
  rw [List.length_drop] at hb
  have hb2 : mcf + e + 2 ≤ buf.length := by omega
  cases reads with
  | nil =>
      rw [read_line_aux, hs]
      exact frame_result_take hb2 _ _
  | cons ev rest =>
      cases ev with
      | chunk c =>
          rw [read_line_aux, hs]
          exact frame_result_take hb2 _ _
      | err e2 =>
          rw [read_line_aux, hs]
          exact frame_result_take hb2 _ _

/-- Main characterisation of one `read_line` call (with no pending error and
a sound scan cursor): if the full remaining byte stream contains a CRLF, the
call returns the first line and the residual state carries exactly the rest
of the stream; otherwise it returns the end-of-sequence signal. -/
theorem read_line_aux_spec :
    ∀ (reads : List ReadEv) (buf : List Nat) (mcf : Nat),
      (∀ j, j < mcf → ¬ pairAt buf j) → chunksOnly reads →
      (match findPair (buf ++ totalData reads) with
       | some i =>
           ∃ buf2 reads2,
             read_line_aux reads buf mcf none =
               (.ok (some ((buf ++ totalData reads).take i)),
                ⟨buf2, 0, reads2, none⟩) ∧
             buf2 ++ totalData reads2 =
               (buf ++ totalData reads).drop (i + 2) ∧
             chunksOnly reads2
       | none => (read_line_aux reads buf mcf none).1 = .ok none) := by
  intro reads
  induction reads with
  | nil =>
      intro buf mcf hinv _
      rw [totalData_nil, List.append_nil]
      cases hs : findPair (buf.drop mcf) with
      | some e =>
          have hf : findPair buf = some (mcf + e) := findPair_drop_some hinv hs
          rw [hf]
          refine ⟨buf.drop (mcf + e + 2), [], ?_, ?_, ?_⟩
          · rw [read_line_aux_frame hs none]
          · rw [totalData_nil, List.append_nil]
          · intro ev hev
            cases hev
      | none =>
          have hf : findPair buf = none := findPair_drop_none hinv hs
          rw [hf]
          rw [read_line_aux, hs]
          rfl
  | cons ev rest ih =>
      intro buf mcf hinv hco
      obtain ⟨c, rfl, hcne⟩ := hco ev (List.mem_cons_self _ _)
      have hco' : chunksOnly rest := fun e he =>
        hco e (List.mem_cons_of_mem _ he)
      rw [totalData_chunk_cons]
      cases hs : findPair (buf.drop mcf) with
      | some e =>
          have hf0 : findPair buf = some (mcf + e) := findPair_drop_some hinv hs
          have hb := findPair_bound hf0
          have hfT : findPair (buf ++ (c ++ totalData rest)) =
              some (mcf + e) := by
            apply findPair_eq_of
            · rw [pairAt_append_left _ (by omega)]
              exact pairAt_findPair hf0
            · intro j hj
              rw [pairAt_append_left _ (by omega)]
              exact findPair_min hf0 j hj
          rw [hfT]
          refine ⟨buf.drop (mcf + e + 2), ReadEv.chunk c :: rest, ?_, ?_,
            hco⟩
          · rw [read_line_aux_frame hs none,
              List.take_append_of_le_length (by omega)]
          · rw [totalData_chunk_cons,
              List.drop_append_of_le_length (by omega)]
      | none =>
          have hf0 : findPair buf = none := findPair_drop_none hinv hs
          rw [read_line_aux, hs]
          dsimp only [Option.elim]
          rw [if_neg (fun h0 => hcne (List.length_eq_zero.mp h0))]
          have hinv2 : ∀ j, j < (buf ++ c).length - (c.length + 1) →
              ¬ pairAt (buf ++ c) j := by
            intro j hj
            rw [List.length_append] at hj
            have hjb : j + 1 < buf.length := by omega
            rw [pairAt_append_left _ hjb]
            exact findPair_none hf0 j
          have hrec := ih (buf ++ c) ((buf ++ c).length - (c.length + 1))
            hinv2 hco'
          rw [List.append_assoc] at hrec
          exact hrec

/-! ## Draining the framer -/

theorem linesOfAux_none {l : List Nat} (h : findPair l = none) :
    ∀ f, linesOfAux f l = [] := by
  intro f
  cases f with
  | zero => rfl
  | succ f0 =>
      unfold linesOfAux
      rw [h]

theorem linesOfAux_congr : ∀ (n : Nat) (l : List Nat) (f g : Nat),
    l.length ≤ n → l.length ≤ f → l.length ≤ g →
    linesOfAux f l = linesOfAux g l := by
  intro n
  induction n with
  | zero =>
      intro l f g hn _ _
      have hnil : l = [] := List.length_eq_zero.mp (by omega)
      subst hnil
      simp only [linesOfAux_none (show findPair ([] : List Nat) = none
        from rfl)]
  | succ n ih =>
      intro l f g hn hf hg
      cases hp : findPair l with
      | none => rw [linesOfAux_none hp, linesOfAux_none hp]
      | some i =>
          have hb := findPair_bound hp
          cases f with
          | zero => omega
          | succ f0 =>
              cases g with
              | zero => omega
              | succ g0 =>
                  unfold linesOfAux
                  rw [hp]
                  dsimp only
                  congr 1
                  apply ih (l.drop (i + 2)) f0 g0 <;>
                    (rw [List.length_drop]; omega)

theorem linesOf_eq (l : List Nat) :
    linesOf l = (match findPair l with
      | some i => l.take i :: linesOf (l.drop (i + 2))
      | none => []) := by
  unfold linesOf
  cases hp : findPair l with
  | none => exact linesOfAux_none hp l.length
  | some i =>
      have hb := findPair_bound hp
      cases hlen : l.length with
      | zero => omega
      | succ m =>
          dsimp only
          conv_lhs => rw [linesOfAux]
          rw [hp]
          dsimp only
          congr 1
          exact linesOfAux_congr (l.drop (i + 2)).length _ _ _ (le_refl _)
            (by rw [List.length_drop]; omega) (le_refl _)

theorem drain_spec : ∀ (fuel : Nat) (buf : List Nat) (mcf : Nat)
    (reads : List ReadEv),
    (∀ j, j < mcf → ¬ pairAt buf j) → chunksOnly reads →
    (buf ++ totalData reads).length < fuel →
    drain fuel ⟨buf, mcf, reads, none⟩ = linesOf (buf ++ totalData reads) := by
  intro fuel
  induction fuel with
  | zero => intro buf mcf reads _ _ h; omega
  | succ fuel ih =>
      intro buf mcf reads hinv hco hlen
      have hspec := read_line_aux_spec reads buf mcf hinv hco
      unfold drain
      cases hp : findPair (buf ++ totalData reads) with
      | none =>
          rw [hp] at hspec
          rw [linesOf_eq, hp]
          unfold read_line
          dsimp only
          cases hr : read_line_aux reads buf mcf none with
          | mk res st =>
              rw [hr] at hspec
              dsimp only at hspec
              rw [hspec]
      | some i =>
          rw [hp] at hspec
          obtain ⟨buf2, reads2, heq, hT, hco2⟩ := hspec
          unfold read_line
          dsimp only
          rw [heq]
          dsimp only
          rw [linesOf_eq, hp]
          dsimp only
          congr 1
          have hb := findPair_bound hp
          have hlen2 : (buf2 ++ totalData reads2).length < fuel := by
            rw [hT, List.length_drop]
            omega
          have hdrain := ih buf2 0 reads2 (fun j hj => absurd hj (by omega))
            hco2 hlen2
          rw [hdrain, hT]

/-! ## Ready-job selection (spec-modelled scheduler) -/

theorem jobBetter_iff (a b : SJob) : jobBetter a b = true ↔
    (a.pri < b.pri ∨ (a.pri = b.pri ∧ a.created < b.created)) := by
  simp [jobBetter]

theorem selectJob_mem : ∀ {ready : List SJob} {s : SJob},
    selectJob ready = some s → s ∈ ready := by
  intro ready
  induction ready with
  | nil => intro s h; cases h
  | cons j rest ih =>
      intro s h
      unfold selectJob at h
      cases hr : selectJob rest with
      | none =>
          rw [hr] at h
          injection h with h2
          rw [← h2]
          exact List.mem_cons_self _ _
      | some k =>
          rw [hr] at h
          dsimp only at h
          by_cases hb : (jobBetter k j : Bool) = true
          · rw [if_pos hb] at h
            injection h with h2
            rw [← h2]
            exact List.mem_cons_of_mem _ (ih hr)
          · rw [if_neg hb] at h
            injection h with h2
            rw [← h2]
            exact List.mem_cons_self _ _

theorem selectJob_min : ∀ {ready : List SJob} {s : SJob},
    selectJob ready = some s → ∀ j ∈ ready, ¬ (jobBetter j s = true) := by
  intro ready
  induction ready with
  | nil => intro s h; cases h
  | cons j rest ih =>
      intro s h j0 hj0
      unfold selectJob at h
      cases hr : selectJob rest with
      | none =>
          have hnil : rest = [] := by
            cases rest with
            | nil => rfl
            | cons a tail =>
                exfalso
                unfold selectJob at hr
                cases h2 : selectJob tail with
                | none => rw [h2] at hr; cases hr
                | some k =>
                    rw [h2] at hr
                    dsimp only at hr
                    by_cases hb : (jobBetter k a : Bool) = true
                    · rw [if_pos hb] at hr; cases hr
                    · rw [if_neg hb] at hr; cases hr
          subst hnil
          rw [hr] at h
          injection h with h2
          subst h2
          rcases List.mem_cons.mp hj0 with rfl | hmem
          · rw [jobBetter_iff]
            omega
          · cases hmem
      | some k =>
          rw [hr] at h
          dsimp only at h
          by_cases hb : (jobBetter k j : Bool) = true
          · rw [if_pos hb] at h
            injection h with h2
            subst h2
            rcases List.mem_cons.mp hj0 with rfl | hmem
            · rw [jobBetter_iff] at hb ⊢
              omega
            · exact ih hr j0 hmem
          · rw [if_neg hb] at h
            injection h with h2
            subst h2
            rcases List.mem_cons.mp hj0 with rfl | hmem
            · rw [jobBetter_iff]
              omega
            · have hk := ih hr j0 hmem
              rw [jobBetter_iff] at hk hb ⊢
              omega

/-! ## Claim theorems -/

/-- Claim C1 (code evaluated at the failing input): the `LineReader` has no
body mode — fed the bytes of a 4-byte `put` body `"ab\r\n"` followed by its
trailing CRLF, the only read operation it offers performs CRLF line
scanning and yields the frames `"ab"` and `""`, not the body intact; the
4-byte body is not recoverable from either frame. -/
theorem c1_framer_no_body_mode :
    drain 7 (LineReader.fromReads [ReadEv.chunk (strB "ab\r\n\r\n")]) =
      [strB "ab", ([] : List Nat)] ∧
    strB "ab" ≠ strB "ab\r\n" := by
  constructor
  · rfl
  · decide

/-- Claim C2 (spec-modelled, the scheduler is absent from the source tree):
a reserve grants a job from the ready collection with the lowest priority
value, ties broken by earliest creation; and for jobs put with priorities
`[50, 10, 10, 90]` in that order, three successive reserves return the
first-inserted priority-10 job, then the second, then the priority-50
job. -/
theorem c2_reserve_priority_order :
    (∀ (ready : List SJob) (sel : SJob) (rest : List SJob),
      reserveOne ready = some (sel, rest) →
      sel ∈ ready ∧ ∀ j ∈ ready,
        sel.pri < j.pri ∨ (sel.pri = j.pri ∧ sel.created ≤ j.created)) ∧
    (reserveOne (putJobs [50, 10, 10, 90]) =
        some (⟨10, 1⟩, [⟨50, 0⟩, ⟨10, 2⟩, ⟨90, 3⟩]) ∧
      reserveOne [⟨50, 0⟩, ⟨10, 2⟩, ⟨90, 3⟩] =
        some (⟨10, 2⟩, [⟨50, 0⟩, ⟨90, 3⟩]) ∧
      reserveOne [⟨50, 0⟩, ⟨90, 3⟩] = some (⟨50, 0⟩, [⟨90, 3⟩])) := by
  constructor
  · intro ready sel rest h
    unfold reserveOne at h
    cases hs : selectJob ready with
    | none => rw [hs] at h; cases h
    | some k =>
        rw [hs] at h
        dsimp only at h
        rw [Option.some.injEq, Prod.mk.injEq] at h
        obtain ⟨hk, -⟩ := h
        subst hk
        refine ⟨selectJob_mem hs, ?_⟩
        intro j hj
        have hmin := selectJob_min hs j hj
        rw [jobBetter_iff] at hmin
        omega
  · exact ⟨by decide, by decide, by decide⟩

/-- Witness for claim C2 at the concrete scenario. -/
theorem c2_witness :
    reserveOne (putJobs [50, 10, 10, 90]) =
      some (⟨10, 1⟩, [⟨50, 0⟩, ⟨10, 2⟩, ⟨90, 3⟩]) ∧
    ((⟨10, 1⟩ : SJob) ∈ putJobs [50, 10, 10, 90] ∧
      ∀ j ∈ putJobs [50, 10, 10, 90],
        (⟨10, 1⟩ : SJob).pri < j.pri ∨
          ((⟨10, 1⟩ : SJob).pri = j.pri ∧
            (⟨10, 1⟩ : SJob).created ≤ j.created)) :=
  ⟨by decide, c2_reserve_priority_order.1 (putJobs [50, 10, 10, 90])
    ⟨10, 1⟩ [⟨50, 0⟩, ⟨10, 2⟩, ⟨90, 3⟩] (by decide)⟩

/-- Claim C3: decimal round-trip and checked accumulation of the numeric
field parsers — a `u32` (resp. `u64`) value's decimal encoding parses back
to itself; an all-digit token whose value is out of range, a token with a
non-digit byte, and an empty token are all `BadFormat`; and the same holds
through whole commands (`delete`, `put`). -/
theorem c3_numeric_fields :
    (∀ n : Nat, n < 2 ^ 32 → expect_next_u32 (32 :: natToDec n) = .ok (n, [])) ∧
    (∀ n : Nat, n < 2 ^ 64 → expect_next_u64 (32 :: natToDec n) = .ok (n, [])) ∧
    (∀ t : List Nat, t ≠ [] → (32 : Nat) ∉ t → (∀ d ∈ t, 48 ≤ d ∧ d ≤ 57) →
      (2 ^ 32 ≤ decVal t → expect_next_u32 (32 :: t) = .error .BadFormat) ∧
      (2 ^ 64 ≤ decVal t → expect_next_u64 (32 :: t) = .error .BadFormat)) ∧
    (∀ (t : List Nat) (d : Nat), (32 : Nat) ∉ t → d ∈ t →
      ¬(48 ≤ d ∧ d ≤ 57) →
      expect_next_u32 (32 :: t) = .error .BadFormat ∧
      expect_next_u64 (32 :: t) = .error .BadFormat) ∧
    (expect_next_u32 [32] = .error .BadFormat ∧
      expect_next_u64 [32] = .error .BadFormat ∧
      (∀ x : List Nat, expect_next_u32 (32 :: 32 :: x) = .error .BadFormat) ∧
      (∀ x : List Nat, expect_next_u64 (32 :: 32 :: x) = .error .BadFormat)) ∧
    (∀ id : Nat, id < 2 ^ 64 →
      parseCommand (strB "delete " ++ natToDec id) = .ok (.Delete id)) ∧
    (∀ pri delay ttr nb : Nat, pri < 2 ^ 32 → delay < 2 ^ 32 →
      ttr < 2 ^ 32 → nb < 2 ^ 32 →
      parseCommand (strB "put " ++ natToDec pri ++ strB " " ++
          natToDec delay ++ strB " " ++ natToDec ttr ++ strB " " ++
          natToDec nb) =
        .ok (.Put pri delay ttr nb)) := by
  refine ⟨?_, ?_, ?_, ?_, ⟨?_, ?_, ?_, ?_⟩, ?_, ?_⟩
  · intro n h; exact expect_next_u32_dec_end h
  · intro n h; exact expect_next_u64_dec_end h
  · intro t hne hns hd
    exact ⟨fun hv => expect_next_u32_overflow hne hns hd hv,
      fun hv => expect_next_u64_overflow hne hns hd hv⟩
  · intro t d hns hd hnd
    exact ⟨expect_next_u32_nondigit hns hd hnd,
      expect_next_u64_nondigit hns hd hnd⟩
  · exact expect_next_u32_empty_end
  · exact expect_next_u64_empty_end
  · exact expect_next_u32_empty_mid
  · exact expect_next_u64_empty_mid
  · intro id h; exact parse_delete_roundtrip h
  · intro pri delay ttr nb h1 h2 h3 h4
    exact parse_put_roundtrip h1 h2 h3 h4

/-- Witness for claim C3 at concrete inputs. -/
theorem c3_witness :
    expect_next_u32 (32 :: natToDec 42) = .ok (42, []) ∧
    expect_next_u64 (32 :: strB "18446744073709551616") =
      .error .BadFormat ∧
    expect_next_u32 (32 :: strB "12a4") = .error .BadFormat ∧
    parseCommand (strB "delete " ++ natToDec 7) = .ok (.Delete 7) :=
  ⟨c3_numeric_fields.1 42 (by decide),
   (c3_numeric_fields.2.2.1 (strB "18446744073709551616") (by decide)
      (by decide) (by decide)).2 (by decide),
   (c3_numeric_fields.2.2.2.1 (strB "12a4") 97 (by decide) (by decide)
      (by decide)).1,
   c3_numeric_fields.2.2.2.2.2.1 7 (by decide)⟩

/-- Claim C4: the parser accepts a byte string in the tube-name position of
`use` exactly when it is a valid tube name in the spec's sense (non-empty,
at most 200 bytes, letters/digits/`+ / ; . $ _ ( )` everywhere and `-`
anywhere but first); everything else is `BadFormat`. -/
theorem c4_tube_name (t : List Nat) :
    parseCommand (strB "use " ++ t) =
      if specValidTubeName t then .ok (.Use t) else .error .BadFormat :=
  parse_use t

/-- Claim C5: a frame whose (non-empty) leading token is not a recognised
command name parses to `UnknownCommand`; and a frame that fully parses to a
command followed by any further bytes (which necessarily begin with a space,
since field tokens run to a space boundary) parses to `BadFormat`. -/
theorem c5_unknown_and_trailing :
    (∀ s t s1 : List Nat, expect_next_token s = .ok (t, s1) →
      t ∉ commandNames → parseCommand s = .error .UnknownCommand) ∧
    (∀ (s : List Nat) (c : BeanstalkCommand) (x : List Nat),
      parseCommand s = .ok c →
      parseCommand (s ++ 32 :: x) = .error .BadFormat) :=
  ⟨fun _ _ _ h hn => parseCommand_unknown h hn,
   fun _ _ x h => parseCommand_trailing h x⟩

/-- Witness for claim C5 at concrete inputs. -/
theorem c5_witness :
    expect_next_token (strB "syntax-error") =
      .ok (strB "syntax-error", []) ∧
    strB "syntax-error" ∉ commandNames ∧
    parseCommand (strB "syntax-error") = .error .UnknownCommand ∧
    parseCommand (strB "quit") = .ok .Quit ∧
    parseCommand (strB "quit" ++ 32 :: strB "x") = .error .BadFormat :=
  ⟨by decide, by decide,
   c5_unknown_and_trailing.1 (strB "syntax-error") (strB "syntax-error") []
     (by decide) (by decide),
   by decide,
   c5_unknown_and_trailing.2 (strB "quit") BeanstalkCommand.Quit (strB "x")
     (by decide)⟩

/-- Claim C6: for every partition of the byte stream into non-empty reads,
draining the framer yields exactly the CRLF-delimited lines of the
concatenated stream (so fragments split anywhere, including between CR and
LF, are reassembled, and pipelined lines are yielded in order); moreover a
complete line already in the buffer is yielded without consuming any
further read. -/
theorem c6_framer_partition_invariance :
    (∀ chunks : List (List Nat), (∀ c ∈ chunks, c ≠ []) →
      drain (chunks.flatten.length + 1)
          (LineReader.fromReads (chunks.map ReadEv.chunk)) =
        linesOf chunks.flatten) ∧
    (∀ (buf : List Nat) (i : Nat) (reads : List ReadEv) (pe : Option Nat),
      findPair buf = some i →
      read_line ⟨buf, 0, reads, pe⟩ =
        (.ok (some (buf.take i)), ⟨buf.drop (i + 2), 0, reads, pe⟩)) := by
  constructor
  · intro chunks hne
    have hco : chunksOnly (chunks.map ReadEv.chunk) := by
      intro ev hev
      rw [List.mem_map] at hev
      obtain ⟨c, hc, rfl⟩ := hev
      exact ⟨c, rfl, hne c hc⟩
    have htd : totalData (chunks.map ReadEv.chunk) = chunks.flatten := by
      unfold totalData
      rw [List.map_map]
      have hcomp : ReadEv.data' ∘ ReadEv.chunk = id := by
        funext c
        rfl
      rw [hcomp, List.map_id]
    have hd := drain_spec (chunks.flatten.length + 1) [] 0
      (chunks.map ReadEv.chunk) (fun j hj => absurd hj (by omega)) hco
      (by rw [List.nil_append, htd]; omega)
    rw [List.nil_append, htd] at hd
    exact hd
  · intro buf i reads pe hs
    have hs0 : findPair (buf.drop 0) = some i := by
      rw [List.drop_zero]
      exact hs
    have hfr := @read_line_aux_frame reads buf 0 i hs0 pe
    simp only [Nat.zero_add] at hfr
    exact hfr

/-- Witness for claim C6: the spec's own fragmentation example, and a
buffered pipelined line. -/
theorem c6_witness :
    (∀ c ∈ [strB "test:", strB "1\r", strB "\n"], c ≠ []) ∧
    drain (([strB "test:", strB "1\r", strB "\n"].flatten).length + 1)
        (LineReader.fromReads
          ([strB "test:", strB "1\r", strB "\n"].map ReadEv.chunk)) =
      [strB "test:1"] ∧
    read_line ⟨strB "a\r\nb\r\n", 0, [], none⟩ =
      (.ok (some (strB "a")), ⟨strB "b\r\n", 0, [], none⟩) := by
  refine ⟨by decide, ?_, ?_⟩
  · exact (c6_framer_partition_invariance.1
      [strB "test:", strB "1\r", strB "\n"] (by decide)).trans (by decide)
  · exact (c6_framer_partition_invariance.2 (strB "a\r\nb\r\n") 1 [] none
      (by decide)).trans (by decide)

/-- Claim C7: at end of stream with nothing buffered `read_line` yields the
normal end-of-sequence signal; a read error with no complete buffered line
is surfaced as the returned error; and a complete buffered line is always
yielded (with the pending error left in place) before any error can be
returned. -/
theorem c7_framer_eof_and_errors :
    read_line ⟨[], 0, [], none⟩ = (.ok none, ⟨[], 0, [], none⟩) ∧
    (∀ (buf : List Nat) (e : Nat) (rest : List ReadEv),
      findPair buf = none →
      (read_line ⟨buf, 0, ReadEv.err e :: rest, none⟩).1 = .error e) ∧
    (∀ (buf : List Nat) (i : Nat) (reads : List ReadEv) (pe : Option Nat),
      findPair buf = some i →
      (read_line ⟨buf, 0, reads, pe⟩).1 = .ok (some (buf.take i)) ∧
      (read_line ⟨buf, 0, reads, pe⟩).2.pending_error = pe) := by
  refine ⟨rfl, ?_, ?_⟩
  · intro buf e rest hs
    have hs0 : findPair (buf.drop 0) = none := by
      rw [List.drop_zero]
      exact hs
    unfold read_line
    dsimp only
    rw [read_line_aux, hs0]
    rfl
  · intro buf i reads pe hs
    have hs0 : findPair (buf.drop 0) = some i := by
      rw [List.drop_zero]
      exact hs
    have hfr := @read_line_aux_frame reads buf 0 i hs0 pe
    simp only [Nat.zero_add] at hfr
    unfold read_line
    dsimp only
    rw [hfr]
    exact ⟨rfl, rfl⟩

/-- Witness for claim C7 at concrete inputs. -/
theorem c7_witness :
    (read_line ⟨strB "par", 0, [ReadEv.err 5], none⟩).1 = .error 5 ∧
    (read_line ⟨strB "ok\r\nx", 0, [], some 7⟩).1 =
      .ok (some (strB "ok")) ∧
    (read_line ⟨strB "ok\r\nx", 0, [], some 7⟩).2.pending_error = some 7 :=
  ⟨c7_framer_eof_and_errors.2.1 (strB "par") 5 [] (by decide),
   ((c7_framer_eof_and_errors.2.2 (strB "ok\r\nx") 2 [] (some 7)
      (by decide)).1).trans (by decide),
   (c7_framer_eof_and_errors.2.2 (strB "ok\r\nx") 2 [] (some 7)
      (by decide)).2⟩

/-- Claim C8: for every typed outcome value the response encoder produces
exactly the §6 wire byte sequence — every simple outcome is its fixed
keyword line followed by CRLF, and for every id and body the `Reserved`
outcome serialises to `RESERVED <id> <n>\r\n` followed by the body bytes
followed by CRLF, with `<n>` the exact byte length of the body (stated
separately for visibility as the second conjunct). -/
theorem c8_response_encoder :
    (∀ r : BeanstalkResponse, r.serialise_beanstalk = specWireBytes r) ∧
    (∀ (id : Nat) (data : List Nat),
      (BeanstalkResponse.Reserved id data).serialise_beanstalk =
        strB "RESERVED" ++ [32] ++ natToDec id ++ [32] ++
          natToDec data.length ++ [13, 10] ++ data ++ [13, 10]) := by
  have hsp : strB " " = [32] := by decide
  have hcrlf : strB "\r\n" = [13, 10] := by decide
  have hres : ∀ (id : Nat) (data : List Nat),
      (BeanstalkResponse.Reserved id data).serialise_beanstalk =
        strB "RESERVED" ++ [32] ++ natToDec id ++ [32] ++
          natToDec data.length ++ [13, 10] ++ data ++ [13, 10] := by
    intro id data
    show strB "RESERVED " ++ natToDec id ++ strB " " ++
        natToDec data.length ++ strB "\r\n" ++ data ++ strB "\r\n" = _
    rw [show strB "RESERVED " = strB "RESERVED" ++ [32] from by decide,
      hsp, hcrlf]
  refine ⟨?_, hres⟩
  intro r
  cases r with
  | OutOfMemory => decide
  | InternalError => decide
  | BadFormat => decide
  | UnknownCommand => decide
  | Inserted id =>
      show strB "INSERTED " ++ natToDec id ++ strB "\r\n" = _
      rw [show strB "INSERTED " = strB "INSERTED" ++ [32] from by decide,
        hcrlf]
      rfl
  | BuriedID id =>
      show strB "BURIED " ++ natToDec id ++ strB "\r\n" = _
      rw [show strB "BURIED " = strB "BURIED" ++ [32] from by decide, hcrlf]
      rfl
  | ExpectedCRLF => decide
  | JobTooBig => decide
  | Draining => decide
  | Using tube =>
      show strB "USING " ++ tube ++ strB "\r\n" = _
      rw [show strB "USING " = strB "USING" ++ [32] from by decide, hcrlf]
      rfl
  | DeadlineSoon => decide
  | TimedOut => decide
  | Reserved id data => exact hres id data
  | NotFound => decide
  | Deleted => decide
  | Released => decide
  | Buried => decide
  | Touched => decide
  | Watching count =>
      show strB "WATCHING " ++ natToDec count ++ strB "\r\n" = _
      rw [show strB "WATCHING " = strB "WATCHING" ++ [32] from by decide,
        hcrlf]
      rfl
  | NotIgnored => decide
  | Found id data =>
      show strB "FOUND " ++ natToDec id ++ strB " " ++
          natToDec data.length ++ strB "\r\n" ++ data ++ strB "\r\n" = _
      rw [show strB "FOUND " = strB "FOUND" ++ [32] from by decide, hsp,
        hcrlf]
      rfl
  | KickedCount count =>
      show strB "KICKED " ++ natToDec count ++ strB "\r\n" = _
      rw [show strB "KICKED " = strB "KICKED" ++ [32] from by decide, hcrlf]
      rfl
  | Kicked => decide
  | OkStatsJob data =>
      show strB "OK " ++ natToDec data.length ++ strB "\r\n" ++ data ++
          strB "\r\n" = _
      rw [show strB "OK " = strB "OK" ++ [32] from by decide, hcrlf]
      rfl
  | OkStats data =>
      show strB "OK " ++ natToDec data.length ++ strB "\r\n" ++ data ++
          strB "\r\n" = _
      rw [show strB "OK " = strB "OK" ++ [32] from by decide, hcrlf]
      rfl
  | OkStatsTube data =>
      show strB "OK " ++ natToDec data.length ++ strB "\r\n" ++ data ++
          strB "\r\n" = _
      rw [show strB "OK " = strB "OK" ++ [32] from by decide, hcrlf]
      rfl
  | OkListTubes data =>
      show strB "OK " ++ natToDec data.length ++ strB "\r\n" ++ data ++
          strB "\r\n" = _
      rw [show strB "OK " = strB "OK" ++ [32] from by decide, hcrlf]
      rfl
  | Paused => decide

/-- Claim C9 (code evaluated at the failing input): `handle_conn` enforces
no 224-byte request-line limit — `longPutLine` is a 231-byte line (233
bytes with its CRLF), yet the server processes it and replies `CMD_OK`,
not `BAD_FORMAT`. -/
theorem c9_no_line_length_limit :
    224 < longPutLine.length + 2 ∧
    handleLine longPutLine = strB "CMD_OK\r\n" ∧
    handleLine longPutLine ≠ ParsingError.BadFormat.serialise_beanstalk := by
  refine ⟨by decide, by decide, by decide⟩

/-- Claim C10: every line that parses successfully — whatever the command —
is answered with the fixed bytes `CMD_OK\r\n`, the same response for every
command; no scheduler or store operation exists to be invoked. -/
theorem c10_cmd_ok :
    (∀ (line : List Nat) (c : BeanstalkCommand),
      parseCommand line = .ok c → handleLine line = strB "CMD_OK\r\n") ∧
    (∀ (line1 line2 : List Nat) (c1 c2 : BeanstalkCommand),
      parseCommand line1 = .ok c1 → parseCommand line2 = .ok c2 →
      handleLine line1 = handleLine line2) := by
  constructor
  · intro line c h
    unfold handleLine
    rw [h]
  · intro l1 l2 c1 c2 h1 h2
    unfold handleLine
    rw [h1, h2]

/-- Witness for claim C10 at a concrete command. -/
theorem c10_witness :
    parseCommand (strB "quit") = .ok .Quit ∧
    handleLine (strB "quit") = strB "CMD_OK\r\n" :=
  ⟨by decide, c10_cmd_ok.1 (strB "quit") .Quit (by decide)⟩

end EnchantedBeans
